import Mathlib

/-!
# Route optimization engine: verification of the specification

A shallow embedding of the route optimization engine
(src/src/services/optimization.js) of the SmartSite repository, together
with proofs and refutations of the specified properties.

Numbers are modelled as rationals.  The geographic distance function
(imported by the source from src/utils/distance.js, which is not part of
the sources at hand) is a parameter of every definition; the predicate
DistSpec captures the contract the specification states for it
(non-negative, symmetric, zero exactly on equal points).  taxiDist is one
concrete computable distance satisfying that contract, used for witnesses
and counterexamples.
-/

namespace SmartSite

/-- A WGS84 coordinate pair, as in the data model. -/
structure Point where
  lat : ℚ
  lng : ℚ
deriving DecidableEq

/-- A destination stop: caller-assigned id plus coordinates. -/
structure Stop where
  id : String
  coordinates : Point
deriving DecidableEq

/-- Modelled from the spec: the GeoDistance contract of section 4.1 for the
distance function whose implementation (src/utils/distance.js) is not in
the sources: a non-negative, symmetric distance that is zero exactly on
equal points.  The whole development is parametric over any such
function. -/
def DistSpec (dist : Point → Point → ℚ) : Prop :=
  (∀ a b, 0 ≤ dist a b) ∧ (∀ a b, dist a b = dist b a) ∧
    (∀ a b, dist a b = 0 ↔ a = b)

/-- A concrete computable distance conforming to DistSpec, used to
instantiate witnesses and counterexamples. -/
def taxiDist (a b : Point) : ℚ :=
  |a.lat - b.lat| + |a.lng - b.lng|

theorem taxiDist_distSpec : DistSpec taxiDist := by
  refine ⟨fun a b => add_nonneg (abs_nonneg _) (abs_nonneg _),
    fun a b => by simp [taxiDist, abs_sub_comm], fun a b => ?_⟩
  constructor
  · intro h
    simp only [taxiDist] at h
    have h1 : |a.lat - b.lat| = 0 ∧ |a.lng - b.lng| = 0 := by
      constructor <;> nlinarith [abs_nonneg (a.lat - b.lat), abs_nonneg (a.lng - b.lng)]
    cases a; cases b
    simp only [abs_eq_zero, sub_eq_zero] at h1
    simp_all
  · intro h; subst h; simp [taxiDist]

/-- The coordinates of the stop at position k, with an arbitrary default
for out-of-range positions (reads of route[k] in the source are always
guarded by a bounds check). -/
def coordAt (route : List Stop) (k : ℕ) : Point :=
  (route[k]?.map Stop.coordinates).getD ⟨0, 0⟩

/-- getSegmentDistance from the source: distance between the coordinates of
two route positions, 0 when either index is out of range. -/
def getSegmentDistance (dist : Point → Point → ℚ) (route : List Stop)
    (i j : ℕ) : ℚ :=
  if i < route.length ∧ j < route.length then
    dist (coordAt route i) (coordAt route j)
  else 0

/-- The splice performed on an accepted 2-opt move: keep positions 0..i,
reverse positions i+1..j, keep the rest. -/
def twoOptSwap (route : List Stop) (i j : ℕ) : List Stop :=
  route.take (i + 1) ++ ((route.drop (i + 1)).take (j - i)).reverse ++
    route.drop (j + 1)

/-- The distance of the two current edges compared by optimize2Opt at a
candidate pair: edge (i, i+1) plus edge (j, (j+1) mod length). -/
def currentDistExpr (dist : Point → Point → ℚ) (r : List Stop)
    (i j : ℕ) : ℚ :=
  getSegmentDistance dist r i (i + 1) +
    getSegmentDistance dist r j ((j + 1) % r.length)

/-- The distance of the two edges that would result from the swap: edge
(i, j) plus edge (i+1, (j+1) mod length). -/
def swappedDistExpr (dist : Point → Point → ℚ) (r : List Stop)
    (i j : ℕ) : ℚ :=
  getSegmentDistance dist r i j +
    getSegmentDistance dist r (i + 1) ((j + 1) % r.length)

/-- The inner j loop of optimize2Opt.  n is the (invariant) length of the
working route; the loop body applies the splice as soon as the swapped
distance is strictly smaller and continues the scan at j+1. -/
def passJ (dist : Point → Point → ℚ) (n : ℕ) (r : List Stop)
    (i j : ℕ) (improved : Bool) : List Stop × Bool :=
  if j < n then
    if swappedDistExpr dist r i j < currentDistExpr dist r i j then
      passJ dist n (twoOptSwap r i j) i (j + 1) true
    else
      passJ dist n r i (j + 1) improved
  else (r, improved)
termination_by n - j

/-- The outer i loop of optimize2Opt: one full pass over all candidate
pairs (i, j) with i+2 ≤ j < n. -/
def passI (dist : Point → Point → ℚ) (n : ℕ) (r : List Stop)
    (i : ℕ) (improved : Bool) : List Stop × Bool :=
  if i + 2 < n then
    let p := passJ dist n r i (i + 2) improved
    passI dist n p.1 (i + 1) p.2
  else (r, improved)
termination_by n - i

/-- The while loop of optimize2Opt: repeat passes while the previous pass
improved and fewer than maxIterations passes have run. -/
def optLoop (dist : Point → Point → ℚ) (n : ℕ) (fuel : ℕ)
    (r : List Stop) : List Stop :=
  match fuel with
  | 0 => r
  | Nat.succ fuel =>
    let p := passI dist n r 0 false
    if p.2 then optLoop dist n fuel p.1 else p.1

/-- optimize2Opt from the source: routes shorter than 4 are returned
unchanged, otherwise bounded first-improvement 2-opt. -/
def optimize2Opt (dist : Point → Point → ℚ) (route : List Stop)
    (maxIterations : ℕ := 100) : List Stop :=
  if route.length < 4 then route
  else optLoop dist route.length maxIterations route

/-- calculateTotalDistance from the source: the open-path distance from
the current location through all stops in order. -/
def calculateTotalDistance (dist : Point → Point → ℚ)
    (currentLocation : Point) (route : List Stop) : ℚ :=
  (route.foldl
    (fun (acc : ℚ × Point) s =>
      (acc.1 + dist acc.2 s.coordinates, s.coordinates))
    (0, currentLocation)).1

/-- The insertion-order id list of the JavaScript Set built from the ids of
the input stores: every id once, keeping first insertions. -/
def dedupFirst : List String → List String
  | [] => []
  | x :: xs => x :: dedupFirst (xs.filter (fun y => y ≠ x))
termination_by l => l.length
decreasing_by
  simp only [List.length_cons]
  exact Nat.lt_succ_of_le (List.length_filter_le _ _)

/-- The body of the nearest-unvisited-store search of optimizeRouteGreedy:
iterate over the unvisited ids in Set insertion order, look each store up
by id in the input list, and keep the first store strictly closer than the
best so far (none plays the role of the initial Infinity). -/
def selectNearest (dist : Point → Point → ℚ) (stores : List Stop)
    (current : Point) : List String → Option (Stop × ℚ) → Option (Stop × ℚ)
  | [], acc => acc
  | sid :: rest, acc =>
    match stores.find? (fun s => s.id == sid) with
    | none => selectNearest dist stores current rest acc
    | some store =>
      let dcs := dist current store.coordinates
      match acc with
      | none => selectNearest dist stores current rest (some (store, dcs))
      | some best =>
        if dcs < best.2 then
          selectNearest dist stores current rest (some (store, dcs))
        else
          selectNearest dist stores current rest (some best)

/-- The while loop of optimizeRouteGreedy.  The fuel is the number of ids
initially unvisited; each iteration removes the chosen id, so the fuel
never runs out before the unvisited list empties. -/
def greedyLoop (dist : Point → Point → ℚ) (stores : List Stop) :
    ℕ → Point → List String → List Stop → List Stop
  | 0, _, _, route => route
  | Nat.succ fuel, current, unvisited, route =>
    if unvisited.isEmpty then route
    else
      match selectNearest dist stores current unvisited none with
      | some sel =>
        greedyLoop dist stores fuel sel.1.coordinates
          (unvisited.erase sel.1.id) (route ++ [sel.1])
      | none => route

/-- optimizeRouteGreedy from the source: nearest-neighbour construction
with the unvisited ids kept in a Set (iterated in insertion order). -/
def optimizeRouteGreedy (dist : Point → Point → ℚ)
    (currentLocation : Point) (stores : List Stop) : List Stop :=
  match stores with
  | [] => []
  | [s] => [s]
  | _ =>
    greedyLoop dist stores (dedupFirst (stores.map Stop.id)).length
      currentLocation (dedupFirst (stores.map Stop.id)) []

/-- JavaScript Math.round: round half toward positive infinity. -/
def jsRound (q : ℚ) : ℤ := ⌊q + 1 / 2⌋

/-- Math.round(q * 100) / 100, the 2-decimal rounding of the source. -/
def round2 (q : ℚ) : ℚ := (jsRound (q * 100) : ℚ) / 100

/-- The record returned by calculateRouteStats. -/
structure RouteStats where
  totalDistance : ℚ
  totalTime : ℚ
  totalCost : ℚ
  stops : ℕ
deriving DecidableEq

/-- One step of the mixed-mode accumulation of calculateRouteStats: the
accumulator is (total time, total cost, current position). -/
def mixedStep (dist : Point → Point → ℚ) (acc : ℚ × ℚ × Point)
    (s : Stop) : ℚ × ℚ × Point :=
  let seg := dist acc.2.2 s.coordinates
  if seg < 1 / 2 then (acc.1 + seg / 3 * 60, acc.2.1, s.coordinates)
  else (acc.1 + 15, acc.2.1 + 3, s.coordinates)

/-- calculateRouteStats from the source: all-zero stats on an empty route,
otherwise distance/time/cost under the selected transport mode, rounded at
the boundary (distance and cost to 2 decimals, time to an integer). -/
def calculateRouteStats (dist : Point → Point → ℚ)
    (currentLocation : Point) (route : List Stop)
    (transportMode : String := "mixed") : RouteStats :=
  match route with
  | [] => ⟨0, 0, 0, 0⟩
  | _ =>
    let totalDistance := calculateTotalDistance dist currentLocation route
    let tc : ℚ × ℚ :=
      if transportMode = "walking" then
        (totalDistance / 3 * 60, 0)
      else if transportMode = "subway" then
        ((route.length : ℚ) * 15 + 20, ((route.length : ℚ) + 1) * 3)
      else
        let m := route.foldl (mixedStep dist) (0, 0, currentLocation)
        (m.1, m.2.1)
    ⟨round2 totalDistance, (jsRound tc.1 : ℚ), round2 tc.2, route.length⟩

/-- The list with newStore inserted at position i (route.slice(0, i) ++
newStore ++ route.slice(i)). -/
def insertAt (route : List Stop) (i : ℕ) (s : Stop) : List Stop :=
  route.take i ++ [s] ++ route.drop i

/-- The increase in total path distance caused by inserting newStore at
position i, exactly as computed in the loop body of
findOptimalInsertionPoint. -/
def insertDelta (dist : Point → Point → ℚ) (currentLocation : Point)
    (route : List Stop) (newStore : Stop) (i : ℕ) : ℚ :=
  calculateTotalDistance dist currentLocation (insertAt route i newStore) -
    calculateTotalDistance dist currentLocation route

/-- The candidate loop of findOptimalInsertionPoint: try every index from
i to route.length, keeping the first index realising the strict minimum
increase (none plays the role of the initial Infinity). -/
def fOIPLoop (dist : Point → Point → ℚ) (currentLocation : Point)
    (route : List Stop) (newStore : Stop) (i : ℕ)
    (best : ℕ × Option ℚ) : ℕ × Option ℚ :=
  if i ≤ route.length then
    let inc := insertDelta dist currentLocation route newStore i
    let best2 : ℕ × Option ℚ :=
      match best.2 with
      | none => (i, some inc)
      | some m => if inc < m then (i, some inc) else best
    fOIPLoop dist currentLocation route newStore (i + 1) best2
  else best
termination_by route.length + 1 - i

/-- findOptimalInsertionPoint from the source: 0 on an empty route,
otherwise the best insertion index (initialised to route.length with an
infinite best increase). -/
def findOptimalInsertionPoint (dist : Point → Point → ℚ)
    (currentLocation : Point) (route : List Stop) (newStore : Stop) : ℕ :=
  match route with
  | [] => 0
  | _ => (fOIPLoop dist currentLocation route newStore 0
      (route.length, none)).1

/-- The distance of the edge from a point to the head of a point list
(0 when the list is empty). -/
def headEdge (dist : Point → Point → ℚ) (a : Point) (ys : List Point) : ℚ :=
  match ys.head? with
  | some b => dist a b
  | none => 0

/-- The total length of the open polyline through a list of points. -/
def pathD (dist : Point → Point → ℚ) : List Point → ℚ
  | [] => 0
  | a :: rest => headEdge dist a rest + pathD dist rest

/-- The distance of the joining edge from the last point of xs to the head
of ys (0 when either is empty). -/
def joinD (dist : Point → Point → ℚ) (xs ys : List Point) : ℚ :=
  match xs.getLast?, ys.head? with
  | some a, some b => dist a b
  | _, _ => 0

/-- The closed-tour length of a route: the open polyline through its stops
plus the wrap edge from the last stop back to the first. -/
def tourDist (dist : Point → Point → ℚ) (r : List Stop) : ℚ :=
  pathD dist (r.map Stop.coordinates) +
    joinD dist (r.map Stop.coordinates) (r.map Stop.coordinates)

/-- The list of consecutive segment distances of a route starting at a
point, in visiting order. -/
def segDistances (dist : Point → Point → ℚ) :
    Point → List Stop → List ℚ
  | _, [] => []
  | current, s :: rest =>
    dist current s.coordinates :: segDistances dist s.coordinates rest

/-- The mixed-mode time contribution of one segment: walk at 3 mph below
half a mile, otherwise a flat 15-minute subway trip. -/
def mixedSegTime (seg : ℚ) : ℚ := if seg < 1 / 2 then seg / 3 * 60 else 15

/-- The mixed-mode cost contribution of one segment: free below half a
mile, otherwise one 3.00 fare. -/
def mixedSegCost (seg : ℚ) : ℚ := if seg < 1 / 2 then 0 else 3

theorem passJ_done {dist : Point → Point → ℚ} {n : ℕ} {r : List Stop}
    {i j : ℕ} {improved : Bool} (h : ¬ j < n) :
    passJ dist n r i j improved = (r, improved) := by
  rw [passJ]; simp [h]

theorem passJ_accept {dist : Point → Point → ℚ} {n : ℕ} {r : List Stop}
    {i j : ℕ} {improved : Bool} (h : j < n)
    (hc : swappedDistExpr dist r i j < currentDistExpr dist r i j) :
    passJ dist n r i j improved =
      passJ dist n (twoOptSwap r i j) i (j + 1) true := by
  rw [passJ]; simp [h, hc]

theorem passJ_reject {dist : Point → Point → ℚ} {n : ℕ} {r : List Stop}
    {i j : ℕ} {improved : Bool} (h : j < n)
    (hc : ¬ swappedDistExpr dist r i j < currentDistExpr dist r i j) :
    passJ dist n r i j improved = passJ dist n r i (j + 1) improved := by
  rw [passJ]; simp [h, hc]

theorem passI_step {dist : Point → Point → ℚ} {n : ℕ} {r : List Stop}
    {i : ℕ} {improved : Bool} (h : i + 2 < n) :
    passI dist n r i improved =
      passI dist n (passJ dist n r i (i + 2) improved).1 (i + 1)
        (passJ dist n r i (i + 2) improved).2 := by
  rw [passI]; simp [h]

theorem passI_done {dist : Point → Point → ℚ} {n : ℕ} {r : List Stop}
    {i : ℕ} {improved : Bool} (h : ¬ i + 2 < n) :
    passI dist n r i improved = (r, improved) := by
  rw [passI]; simp [h]

theorem fOIPLoop_step {dist : Point → Point → ℚ} {cur : Point}
    {route : List Stop} {s : Stop} {i : ℕ} {best : ℕ × Option ℚ}
    (h : i ≤ route.length) :
    fOIPLoop dist cur route s i best =
      fOIPLoop dist cur route s (i + 1)
        (match best.2 with
         | none => (i, some (insertDelta dist cur route s i))
         | some m =>
           if insertDelta dist cur route s i < m then
             (i, some (insertDelta dist cur route s i))
           else best) := by
  rw [fOIPLoop]; simp [h]

theorem fOIPLoop_done {dist : Point → Point → ℚ} {cur : Point}
    {route : List Stop} {s : Stop} {i : ℕ} {best : ℕ × Option ℚ}
    (h : ¬ i ≤ route.length) :
    fOIPLoop dist cur route s i best = best := by
  rw [fOIPLoop]; simp [h]

theorem jsRound_zero : jsRound 0 = 0 := by
  simp [jsRound]
  norm_num

theorem round2_zero : round2 0 = 0 := by
  simp [round2, jsRound]
  norm_num

/-- The total-distance fold equals the sum of the per-segment distances. -/
theorem calcTotal_foldl_eq (dist : Point → Point → ℚ) (route : List Stop) :
    ∀ (a : ℚ) (cur : Point),
      (route.foldl
        (fun (acc : ℚ × Point) s =>
          (acc.1 + dist acc.2 s.coordinates, s.coordinates)) (a, cur)).1 =
      a + (segDistances dist cur route).sum := by
  induction route with
  | nil => intro a cur; simp [segDistances]
  | cons s rest ih =>
    intro a cur
    simp only [List.foldl_cons, segDistances, List.sum_cons]
    rw [ih]
    ring

theorem calculateTotalDistance_eq_sum (dist : Point → Point → ℚ)
    (cur : Point) (route : List Stop) :
    calculateTotalDistance dist cur route =
      (segDistances dist cur route).sum := by
  unfold calculateTotalDistance
  rw [calcTotal_foldl_eq]
  ring

/-- The mixed-mode fold accumulates per-segment times and costs. -/
theorem mixed_foldl_eq (dist : Point → Point → ℚ) (route : List Stop) :
    ∀ (t c : ℚ) (cur : Point),
      (route.foldl (mixedStep dist) (t, c, cur)).1 =
          t + ((segDistances dist cur route).map mixedSegTime).sum ∧
        (route.foldl (mixedStep dist) (t, c, cur)).2.1 =
          c + ((segDistances dist cur route).map mixedSegCost).sum := by
  induction route with
  | nil => intro t c cur; simp [segDistances]
  | cons s rest ih =>
    intro t c cur
    simp only [List.foldl_cons, segDistances, List.map_cons, List.sum_cons,
      mixedStep, mixedSegTime, mixedSegCost]
    by_cases hseg : dist cur s.coordinates < 1 / 2
    · simp only [hseg, if_true]
      obtain ⟨h1, h2⟩ := ih (t + dist cur s.coordinates / 3 * 60) c s.coordinates
      constructor
      · rw [h1]; ring
      · rw [h2]; ring
    · simp only [hseg, if_false]
      obtain ⟨h1, h2⟩ := ih (t + 15) (c + 3) s.coordinates
      constructor
      · rw [h1]; ring
      · rw [h2]; ring

/-- C7: in walking mode on a non-empty route, the total cost is exactly 0
and the total time is the full-precision total distance divided by 3 mph,
times 60, rounded to an integer only at the boundary. -/
theorem walking_stats_correct (dist : Point → Point → ℚ) (cur : Point)
    (route : List Stop) (h : route ≠ []) :
    (calculateRouteStats dist cur route "walking").totalCost = 0 ∧
      (calculateRouteStats dist cur route "walking").totalTime =
        (jsRound (calculateTotalDistance dist cur route / 3 * 60) : ℚ) := by
  match route with
  | [] => exact absurd rfl h
  | s :: rest =>
    constructor
    · simp [calculateRouteStats, round2_zero]
    · simp [calculateRouteStats]

/-- C10: for every transport mode other than the exact strings "walking"
and "subway" (the omitted-argument default "mixed" included), the stats
follow the mixed per-segment policy: segments strictly below half a mile
are walked at 3 mph for free, segments of half a mile or more add a flat
15 minutes and one 3.00 fare. -/
theorem mixed_stats_correct (dist : Point → Point → ℚ) (cur : Point)
    (route : List Stop) (mode : String) (h1 : mode ≠ "walking")
    (h2 : mode ≠ "subway") :
    calculateRouteStats dist cur route mode =
      ⟨round2 ((segDistances dist cur route).sum),
        (jsRound (((segDistances dist cur route).map mixedSegTime).sum) : ℚ),
        round2 (((segDistances dist cur route).map mixedSegCost).sum),
        route.length⟩ := by
  match route with
  | [] =>
    simp [calculateRouteStats, segDistances, round2_zero, jsRound_zero]
  | s :: rest =>
    obtain ⟨ht, hc⟩ := mixed_foldl_eq dist (s :: rest) 0 0 cur
    simp only [calculateRouteStats, h1, h2, if_false,
      calculateTotalDistance_eq_sum, ht, hc]
    norm_num

/-- C8: the four engine entry points are deterministic: equal inputs give
equal outputs. -/
theorem engine_deterministic (dist : Point → Point → ℚ)
    (cur₁ cur₂ : Point) (stores₁ stores₂ route₁ route₂ : List Stop)
    (mode₁ mode₂ : String) (m₁ m₂ : ℕ) (ns₁ ns₂ : Stop)
    (hcur : cur₁ = cur₂) (hstores : stores₁ = stores₂)
    (hroute : route₁ = route₂) (hmode : mode₁ = mode₂) (hm : m₁ = m₂)
    (hns : ns₁ = ns₂) :
    optimizeRouteGreedy dist cur₁ stores₁ =
        optimizeRouteGreedy dist cur₂ stores₂ ∧
      optimize2Opt dist route₁ m₁ = optimize2Opt dist route₂ m₂ ∧
      calculateRouteStats dist cur₁ route₁ mode₁ =
        calculateRouteStats dist cur₂ route₂ mode₂ ∧
      findOptimalInsertionPoint dist cur₁ route₁ ns₁ =
        findOptimalInsertionPoint dist cur₂ route₂ ns₂ := by
  subst hcur hstores hroute hmode hm hns
  exact ⟨rfl, rfl, rfl, rfl⟩

/-- A small concrete route used to instantiate hypotheses of proved
theorems. -/
def demoRoute : List Stop := [⟨"a", ⟨1, 0⟩⟩, ⟨"b", ⟨1, 2⟩⟩]

/-- C7 witness: the walking-mode statement instantiated on a concrete
two-stop route. -/
theorem walking_stats_witness :
    (calculateRouteStats taxiDist ⟨0, 0⟩ demoRoute "walking").totalCost = 0 ∧
      (calculateRouteStats taxiDist ⟨0, 0⟩ demoRoute "walking").totalTime =
        (jsRound (calculateTotalDistance taxiDist ⟨0, 0⟩ demoRoute / 3 * 60) :
          ℚ) :=
  walking_stats_correct taxiDist ⟨0, 0⟩ demoRoute (by simp [demoRoute])

/-- C10 witness: the mixed-mode statement instantiated at the default mode
string on a concrete route. -/
theorem mixed_stats_witness :
    calculateRouteStats taxiDist ⟨0, 0⟩ demoRoute "mixed" =
      ⟨round2 ((segDistances taxiDist ⟨0, 0⟩ demoRoute).sum),
        (jsRound (((segDistances taxiDist ⟨0, 0⟩ demoRoute).map
          mixedSegTime).sum) : ℚ),
        round2 (((segDistances taxiDist ⟨0, 0⟩ demoRoute).map
          mixedSegCost).sum),
        demoRoute.length⟩ :=
  mixed_stats_correct taxiDist ⟨0, 0⟩ demoRoute "mixed" (by simp) (by simp)

/-- C8 witness: determinism instantiated on concrete equal inputs. -/
theorem engine_deterministic_witness :
    optimizeRouteGreedy taxiDist ⟨0, 0⟩ demoRoute =
        optimizeRouteGreedy taxiDist ⟨0, 0⟩ demoRoute ∧
      optimize2Opt taxiDist demoRoute 100 = optimize2Opt taxiDist demoRoute 100 ∧
      calculateRouteStats taxiDist ⟨0, 0⟩ demoRoute "mixed" =
        calculateRouteStats taxiDist ⟨0, 0⟩ demoRoute "mixed" ∧
      findOptimalInsertionPoint taxiDist ⟨0, 0⟩ demoRoute ⟨"c", ⟨2, 2⟩⟩ =
        findOptimalInsertionPoint taxiDist ⟨0, 0⟩ demoRoute ⟨"c", ⟨2, 2⟩⟩ :=
  engine_deterministic taxiDist ⟨0, 0⟩ ⟨0, 0⟩ demoRoute demoRoute demoRoute
    demoRoute "mixed" "mixed" 100 100 ⟨"c", ⟨2, 2⟩⟩ ⟨"c", ⟨2, 2⟩⟩
    rfl rfl rfl rfl rfl rfl

/-- C2 amended: at a candidate pair whose second position j is the last
position of the route, the modulo indexing makes the comparison include
the wrap edges to the first stop: the current side is edge (i, i+1) plus
the edge from the last stop to the first, and the swapped side is edge
(i, last) plus the edge from stop i+1 to the first — closed-tour
semantics, not the open-path comparison the claim describes. -/
theorem lastPosition_comparison_wraps (dist : Point → Point → ℚ)
    (r : List Stop) (i : ℕ) (h4 : 4 ≤ r.length)
    (hi : i + 2 ≤ r.length - 1) :
    currentDistExpr dist r i (r.length - 1) =
        dist (coordAt r i) (coordAt r (i + 1)) +
          dist (coordAt r (r.length - 1)) (coordAt r 0) ∧
      swappedDistExpr dist r i (r.length - 1) =
        dist (coordAt r i) (coordAt r (r.length - 1)) +
          dist (coordAt r (i + 1)) (coordAt r 0) := by
  have h1 : (r.length - 1) + 1 = r.length := by omega
  have hi1 : i < r.length := by omega
  have hi2 : i + 1 < r.length := by omega
  have hlast : r.length - 1 < r.length := by omega
  have hzero : 0 < r.length := by omega
  unfold currentDistExpr swappedDistExpr getSegmentDistance
  rw [h1, Nat.mod_self]
  simp [hi1, hi2, hlast, hzero]

/-- A concrete 4-stop route on a line, on which the comparison at the last
position visibly includes the wrap edge. -/
def cexRoute2 : List Stop :=
  [⟨"a", ⟨0, 0⟩⟩, ⟨"b", ⟨3, 0⟩⟩, ⟨"c", ⟨1, 0⟩⟩, ⟨"d", ⟨2, 0⟩⟩]

/-- C2 counterexample: at the pair (i, j) = (1, 3) on a concrete 4-stop
route, the code's comparison terms differ from the single-edge comparison
the claim describes — the wrap edge from the last stop to the first stop
is included on both sides. -/
theorem lastPosition_comparison_cex :
    currentDistExpr taxiDist cexRoute2 1 3 ≠
        getSegmentDistance taxiDist cexRoute2 1 2 ∧
      swappedDistExpr taxiDist cexRoute2 1 3 ≠
        getSegmentDistance taxiDist cexRoute2 1 3 := by
  constructor <;>
    norm_num [currentDistExpr, swappedDistExpr, getSegmentDistance, coordAt,
      cexRoute2, taxiDist]

theorem pathD_append (dist : Point → Point → ℚ) (xs ys : List Point) :
    pathD dist (xs ++ ys) = pathD dist xs + joinD dist xs ys + pathD dist ys := by
  induction xs with
  | nil => simp [pathD, joinD]
  | cons a xs ih =>
    have key : headEdge dist a (xs ++ ys) + joinD dist xs ys =
        headEdge dist a xs + joinD dist (a :: xs) ys := by
      match xs with
      | [] => cases hys : ys.head? <;> simp [headEdge, joinD, hys]
      | c :: t => simp [headEdge, joinD]
    simp only [List.cons_append, pathD, List.append_eq, ih]
    linarith [key]

theorem pathD_reverse (dist : Point → Point → ℚ)
    (hsym : ∀ a b, dist a b = dist b a) (l : List Point) :
    pathD dist l.reverse = pathD dist l := by
  induction l with
  | nil => rfl
  | cons a t ih =>
    rw [List.reverse_cons, pathD_append, ih]
    match t with
    | [] => simp [pathD, joinD, headEdge]
    | b :: t2 =>
      simp only [pathD, joinD, headEdge, List.getLast?_reverse,
        List.head?_cons, List.head?_nil]
      rw [hsym b a]
      ring

theorem head?_append_left {α : Type} {xs ys : List α} (h : xs ≠ []) :
    (xs ++ ys).head? = xs.head? := by
  cases xs with
  | nil => exact absurd rfl h
  | cons a t => simp

/-- An accepted 2-opt move changes the closed-tour length by exactly the
difference between the swapped and the current comparison terms. -/
theorem tourDist_twoOptSwap (dist : Point → Point → ℚ)
    (hsym : ∀ a b, dist a b = dist b a) (r : List Stop) (i j : ℕ)
    (hij : i + 2 ≤ j) (hj : j < r.length) :
    tourDist dist (twoOptSwap r i j) =
      tourDist dist r - currentDistExpr dist r i j +
        swappedDistExpr dist r i j := by
  set cs := r.map Stop.coordinates with hcs
  have hlen : cs.length = r.length := by simp [hcs]
  set n := r.length with hn
  have hget : ∀ k, k < n → cs[k]? = some (coordAt r k) := by
    intro k hk
    rw [hcs, List.getElem?_map]
    rw [List.getElem?_eq_getElem (show k < r.length by omega)]
    simp [coordAt, List.getElem?_eq_getElem (show k < r.length by omega)]
  set A := cs.take (i + 1) with hA
  set B := (cs.drop (i + 1)).take (j - i) with hB
  set C := cs.drop (j + 1) with hC
  have hmap : (twoOptSwap r i j).map Stop.coordinates = A ++ B.reverse ++ C := by
    simp [twoOptSwap, hA, hB, hC, hcs]
  have harith : (i + 1) + (j - i) = j + 1 := by omega
  have hsplit : cs = A ++ (B ++ C) := by
    rw [hA, hB, hC]
    conv_lhs => rw [← List.take_append_drop (i + 1) cs]
    congr 1
    conv_lhs => rw [← List.take_append_drop (j - i) (cs.drop (i + 1))]
    rw [List.drop_drop, harith]
  have hAlen : A.length = i + 1 := by
    rw [hA, List.length_take]; omega
  have hBlen : B.length = j - i := by
    rw [hB, List.length_take, List.length_drop]; omega
  have hAne : A ≠ [] := by
    intro h; rw [h] at hAlen; simp at hAlen
  have hBne : B ≠ [] := by
    intro h; rw [h] at hBlen; simp at hBlen; omega
  have hBrevne : B.reverse ≠ [] := by simp [hBne]
  have hAhead : A.head? = some (coordAt r 0) := by
    rw [hA, List.head?_eq_getElem?, List.getElem?_take,
      if_pos (show 0 < i + 1 by omega), hget 0 (by omega)]
  have hAlast : A.getLast? = some (coordAt r i) := by
    rw [List.getLast?_eq_getElem?, hAlen, Nat.add_sub_cancel, hA,
      List.getElem?_take, if_pos (show i < i + 1 by omega), hget i (by omega)]
  have hBhead : B.head? = some (coordAt r (i + 1)) := by
    rw [List.head?_eq_getElem?, hB, List.getElem?_take,
      if_pos (show 0 < j - i by omega), List.getElem?_drop, Nat.add_zero,
      hget (i + 1) (by omega)]
  have hBlast : B.getLast? = some (coordAt r j) := by
    rw [List.getLast?_eq_getElem?, hBlen, hB, List.getElem?_take,
      if_pos (show j - i - 1 < j - i by omega), List.getElem?_drop,
      show (i + 1) + (j - i - 1) = j by omega, hget j (by omega)]
  have hcsHead : cs.head? = some (coordAt r 0) := by
    rw [List.head?_eq_getElem?, hget 0 (by omega)]
  have hcsLast : cs.getLast? = some (coordAt r (n - 1)) := by
    rw [List.getLast?_eq_getElem?, hlen]
    exact hget (n - 1) (by omega)
  rcases Nat.lt_or_ge (j + 1) n with hjn | hjn
  · -- the pair (i, j) touches no wrap edge: j + 1 < n
    have hClen : C.length = n - (j + 1) := by
      rw [hC, List.length_drop, hlen, hn]
    have hCne : C ≠ [] := by
      intro h; rw [h] at hClen; simp at hClen; omega
    have hChead : C.head? = some (coordAt r (j + 1)) := by
      rw [List.head?_eq_getElem?, hC, List.getElem?_drop, Nat.add_zero,
        hget (j + 1) (by omega)]
    have hClast : C.getLast? = some (coordAt r (n - 1)) := by
      rw [List.getLast?_eq_getElem?, hClen, hC, List.getElem?_drop,
        show (j + 1) + (n - (j + 1) - 1) = n - 1 by omega,
        hget (n - 1) (by omega)]
    have hcur : currentDistExpr dist r i j =
        dist (coordAt r i) (coordAt r (i + 1)) +
          dist (coordAt r j) (coordAt r (j + 1)) := by
      unfold currentDistExpr getSegmentDistance
      rw [← hn, Nat.mod_eq_of_lt hjn]
      have c1 : i < n := by omega
      have c2 : i + 1 < n := by omega
      have c3 : j + 1 < n := hjn
      simp [c1, c2, c3, hj]
    have hswap : swappedDistExpr dist r i j =
        dist (coordAt r i) (coordAt r j) +
          dist (coordAt r (i + 1)) (coordAt r (j + 1)) := by
      unfold swappedDistExpr getSegmentDistance
      rw [← hn, Nat.mod_eq_of_lt hjn]
      have c1 : i < n := by omega
      have c2 : i + 1 < n := by omega
      have c3 : j + 1 < n := hjn
      simp [c1, c2, c3, hj]
    have hLHS : tourDist dist (twoOptSwap r i j) =
        pathD dist A + dist (coordAt r i) (coordAt r j) + pathD dist B +
          dist (coordAt r (i + 1)) (coordAt r (j + 1)) + pathD dist C +
          dist (coordAt r (n - 1)) (coordAt r 0) := by
      unfold tourDist
      rw [hmap]
      rw [show A ++ B.reverse ++ C = A ++ (B.reverse ++ C) by
        rw [List.append_assoc]]
      rw [pathD_append, pathD_append, pathD_reverse dist hsym]
      have j1 : joinD dist A (B.reverse ++ C) =
          dist (coordAt r i) (coordAt r j) := by
        unfold joinD
        rw [head?_append_left hBrevne, List.head?_reverse, hAlast, hBlast]
      have j2 : joinD dist B.reverse C =
          dist (coordAt r (i + 1)) (coordAt r (j + 1)) := by
        unfold joinD
        rw [List.getLast?_reverse, hBhead, hChead]
      have hBCrev_ne : B.reverse ++ C ≠ [] := by simp [hCne]
      have j3 : joinD dist (A ++ (B.reverse ++ C)) (A ++ (B.reverse ++ C)) =
          dist (coordAt r (n - 1)) (coordAt r 0) := by
        unfold joinD
        rw [head?_append_left hAne, hAhead,
          List.getLast?_append_of_ne_nil _ hBCrev_ne,
          List.getLast?_append_of_ne_nil _ hCne, hClast]
      rw [j1, j2, j3]
      ring
    have hRHS : tourDist dist r =
        pathD dist A + dist (coordAt r i) (coordAt r (i + 1)) + pathD dist B +
          dist (coordAt r j) (coordAt r (j + 1)) + pathD dist C +
          dist (coordAt r (n - 1)) (coordAt r 0) := by
      unfold tourDist
      rw [← hcs, hsplit]
      rw [pathD_append, pathD_append]
      have j1 : joinD dist A (B ++ C) =
          dist (coordAt r i) (coordAt r (i + 1)) := by
        unfold joinD
        rw [head?_append_left hBne, hAlast, hBhead]
      have j2 : joinD dist B C = dist (coordAt r j) (coordAt r (j + 1)) := by
        unfold joinD
        rw [hBlast, hChead]
      have hBC_ne : B ++ C ≠ [] := by simp [hCne]
      have j3 : joinD dist (A ++ (B ++ C)) (A ++ (B ++ C)) =
          dist (coordAt r (n - 1)) (coordAt r 0) := by
        unfold joinD
        rw [head?_append_left hAne, hAhead,
          List.getLast?_append_of_ne_nil _ hBC_ne,
          List.getLast?_append_of_ne_nil _ hCne, hClast]
      rw [j1, j2, j3]
      ring
    rw [hLHS, hRHS, hcur, hswap]
    ring
  · -- the pair (i, j) has j at the last position: j + 1 = n
    have hjn' : j + 1 = n := by omega
    have hCnil : C = [] := by
      rw [hC, List.drop_eq_nil_iff]
      omega
    have hsplit2 : cs = A ++ B := by
      rw [hsplit, hCnil, List.append_nil]
    have hmap2 : (twoOptSwap r i j).map Stop.coordinates = A ++ B.reverse := by
      rw [hmap, hCnil, List.append_nil]
    have hcur : currentDistExpr dist r i j =
        dist (coordAt r i) (coordAt r (i + 1)) +
          dist (coordAt r j) (coordAt r 0) := by
      unfold currentDistExpr getSegmentDistance
      rw [← hn, hjn', Nat.mod_self]
      have c1 : i < n := by omega
      have c2 : i + 1 < n := by omega
      have c3 : 0 < n := by omega
      simp [c1, c2, c3, hj]
    have hswap : swappedDistExpr dist r i j =
        dist (coordAt r i) (coordAt r j) +
          dist (coordAt r (i + 1)) (coordAt r 0) := by
      unfold swappedDistExpr getSegmentDistance
      rw [← hn, hjn', Nat.mod_self]
      have c1 : i < n := by omega
      have c2 : i + 1 < n := by omega
      have c3 : 0 < n := by omega
      simp [c1, c2, c3, hj]
    have hLHS : tourDist dist (twoOptSwap r i j) =
        pathD dist A + dist (coordAt r i) (coordAt r j) + pathD dist B +
          dist (coordAt r (i + 1)) (coordAt r 0) := by
      unfold tourDist
      rw [hmap2, pathD_append, pathD_reverse dist hsym]
      have j1 : joinD dist A B.reverse =
          dist (coordAt r i) (coordAt r j) := by
        unfold joinD
        rw [List.head?_reverse, hAlast, hBlast]
      have j2 : joinD dist (A ++ B.reverse) (A ++ B.reverse) =
          dist (coordAt r (i + 1)) (coordAt r 0) := by
        unfold joinD
        rw [head?_append_left hAne, hAhead,
          List.getLast?_append_of_ne_nil _ hBrevne, List.getLast?_reverse,
          hBhead]
      rw [j1, j2]
    have hRHS : tourDist dist r =
        pathD dist A + dist (coordAt r i) (coordAt r (i + 1)) + pathD dist B +
          dist (coordAt r j) (coordAt r 0) := by
      unfold tourDist
      rw [← hcs, hsplit2, pathD_append]
      have j1 : joinD dist A B = dist (coordAt r i) (coordAt r (i + 1)) := by
        unfold joinD
        rw [hAlast, hBhead]
      have j2 : joinD dist (A ++ B) (A ++ B) =
          dist (coordAt r j) (coordAt r 0) := by
        unfold joinD
        rw [head?_append_left hAne, hAhead,
          List.getLast?_append_of_ne_nil _ hBne, hBlast]
      rw [j1, j2]
    rw [hLHS, hRHS, hcur, hswap]
    ring

theorem twoOptSwap_length {r : List Stop} {i j : ℕ} (hij : i + 2 ≤ j)
    (hj : j < r.length) : (twoOptSwap r i j).length = r.length := by
  simp [twoOptSwap]
  omega

/-- The inner loop never increases the closed-tour length and preserves
the route length. -/
theorem passJ_tour (dist : Point → Point → ℚ)
    (hsym : ∀ a b, dist a b = dist b a) (n : ℕ) :
    ∀ (r : List Stop) (i j : ℕ) (improved : Bool), n = r.length →
      i + 2 ≤ j →
      tourDist dist (passJ dist n r i j improved).1 ≤ tourDist dist r ∧
        (passJ dist n r i j improved).1.length = r.length := by
  intro r i j improved
  induction r, i, j, improved using passJ.induct dist n with
  | case1 r i j improved hjn hc ih =>
    intro hn hij
    rw [passJ_accept hjn hc]
    have hswlen := twoOptSwap_length hij (show j < r.length by omega)
    obtain ⟨ih1, ih2⟩ := ih (by omega) (by omega)
    have hswap := tourDist_twoOptSwap dist hsym r i j hij (by omega)
    refine ⟨?_, by rw [ih2, hswlen]⟩
    calc tourDist dist (passJ dist n (twoOptSwap r i j) i (j + 1) true).1
        ≤ tourDist dist (twoOptSwap r i j) := ih1
      _ = tourDist dist r - currentDistExpr dist r i j +
          swappedDistExpr dist r i j := hswap
      _ ≤ tourDist dist r := by linarith [hc]
  | case2 r i j improved hjn hc ih =>
    intro hn hij
    rw [passJ_reject hjn hc]
    exact ih hn (by omega)
  | case3 r i j improved hjn =>
    intro hn hij
    rw [passJ_done hjn]
    exact ⟨le_refl _, rfl⟩

/-- One full pass never increases the closed-tour length and preserves the
route length. -/
theorem passI_tour (dist : Point → Point → ℚ)
    (hsym : ∀ a b, dist a b = dist b a) (n : ℕ) :
    ∀ (r : List Stop) (i : ℕ) (improved : Bool), n = r.length →
      tourDist dist (passI dist n r i improved).1 ≤ tourDist dist r ∧
        (passI dist n r i improved).1.length = r.length := by
  intro r i improved
  induction r, i, improved using passI.induct dist n with
  | case1 r i improved hin p ih =>
    intro hn
    rw [passI_step hin]
    obtain ⟨pj1, pj2⟩ :=
      passJ_tour dist hsym n r i (i + 2) improved hn (le_refl _)
    obtain ⟨ih1, ih2⟩ := ih (hn.trans pj2.symm)
    exact ⟨le_trans ih1 pj1, ih2.trans pj2⟩
  | case2 r i improved hin =>
    intro hn
    rw [passI_done hin]
    exact ⟨le_refl _, rfl⟩

/-- The bounded while loop never increases the closed-tour length. -/
theorem optLoop_tour (dist : Point → Point → ℚ)
    (hsym : ∀ a b, dist a b = dist b a) (n : ℕ) :
    ∀ (fuel : ℕ) (r : List Stop), n = r.length →
      tourDist dist (optLoop dist n fuel r) ≤ tourDist dist r ∧
        (optLoop dist n fuel r).length = r.length := by
  intro fuel
  induction fuel with
  | zero => intro r hn; exact ⟨le_refl _, rfl⟩
  | succ fuel ih =>
    intro r hn
    obtain ⟨p1, p2⟩ := passI_tour dist hsym n r 0 false hn
    have hstep : optLoop dist n (fuel + 1) r =
        if (passI dist n r 0 false).2 then
          optLoop dist n fuel (passI dist n r 0 false).1
        else (passI dist n r 0 false).1 := rfl
    rw [hstep]
    by_cases himp : (passI dist n r 0 false).2
    · simp only [himp, if_true]
      obtain ⟨ih1, ih2⟩ := ih (passI dist n r 0 false).1 (hn.trans p2.symm)
      exact ⟨le_trans ih1 p1, ih2.trans p2⟩
    · simp only [himp, if_false]
      exact ⟨p1, p2⟩

/-- C1 amended: for every symmetric distance function, every route and
every iteration bound, optimize2Opt never increases the closed-tour
length of the route (the open polyline through the stops plus the wrap
edge from the last stop back to the first) — the quantity its modulo
indexing actually compares.  The open-path total the claim speaks about
can increase (see the counterexample). -/
theorem tourDist_monotone (dist : Point → Point → ℚ)
    (hsym : ∀ a b, dist a b = dist b a) (route : List Stop)
    (maxIterations : ℕ) :
    tourDist dist (optimize2Opt dist route maxIterations) ≤
      tourDist dist route := by
  unfold optimize2Opt
  by_cases h : route.length < 4
  · simp [h]
  · simp only [h, if_false]
    exact (optLoop_tour dist hsym route.length maxIterations route rfl).1

/-- A concrete start point for the open-path counterexample. -/
def cexStart : Point := ⟨-2, 1⟩

/-- A concrete 5-stop route on which a wrap-edge move makes the open-path
total grow. -/
def cexRoute : List Stop :=
  [⟨"a", ⟨-7, -2⟩⟩, ⟨"b", ⟨5, -4⟩⟩, ⟨"c", ⟨2, -5⟩⟩, ⟨"d", ⟨3, 2⟩⟩,
    ⟨"e", ⟨7, 8⟩⟩]

/-- The route optimize2Opt produces from cexRoute after one pass (moves at
the pairs (0, 2) and (2, 4), the latter a wrap-edge move). -/
def cexRouteOut : List Stop :=
  [⟨"a", ⟨-7, -2⟩⟩, ⟨"c", ⟨2, -5⟩⟩, ⟨"b", ⟨5, -4⟩⟩, ⟨"e", ⟨7, 8⟩⟩,
    ⟨"d", ⟨3, 2⟩⟩]

set_option maxRecDepth 4000 in
theorem optimize2Opt_cexRoute_eval :
    optimize2Opt taxiDist cexRoute 1 = cexRouteOut := by
  simp (disch := norm_num [currentDistExpr, swappedDistExpr,
      getSegmentDistance, coordAt, cexRoute, taxiDist, twoOptSwap]) only
    [optimize2Opt, optLoop, passJ_done, passJ_accept, passJ_reject,
     passI_step, passI_done, twoOptSwap, cexRoute, cexRouteOut, List.take,
     List.drop, List.reverse, List.length, List.append, List.reverseAux,
     List.cons_append, List.nil_append]
  norm_num

/-- C1 counterexample: taxiDist satisfies the spec contract for the
distance function, yet on the concrete 5-stop route cexRoute (with
maxIterations = 1 ≥ 0) optimize2Opt returns a route whose open-path total
distance is strictly larger than the input's: 48 versus 44 — refinement
can increase the open-path route length. -/
theorem openPathIncrease_cex :
    DistSpec taxiDist ∧
      calculateTotalDistance taxiDist cexStart (optimize2Opt taxiDist cexRoute 1) >
        calculateTotalDistance taxiDist cexStart cexRoute := by
  refine ⟨taxiDist_distSpec, ?_⟩
  rw [optimize2Opt_cexRoute_eval]
  norm_num [calculateTotalDistance, cexStart, cexRoute, cexRouteOut,
    taxiDist, List.foldl]

/-- C1 amended witness: closed-tour monotonicity instantiated at taxiDist
and the concrete route cexRoute. -/
theorem tourDist_monotone_witness :
    tourDist taxiDist (optimize2Opt taxiDist cexRoute 100) ≤
      tourDist taxiDist cexRoute :=
  tourDist_monotone taxiDist (fun a b => by simp [taxiDist, abs_sub_comm])
    cexRoute 100

theorem twoOptSwap_perm {r : List Stop} {i j : ℕ} (hij : i ≤ j) :
    (twoOptSwap r i j).Perm r := by
  have harith : (i + 1) + (j - i) = j + 1 := by omega
  have hsplit : r = r.take (i + 1) ++
      ((r.drop (i + 1)).take (j - i) ++ (r.drop (i + 1)).drop (j - i)) := by
    rw [List.take_append_drop, List.take_append_drop]
  conv_rhs => rw [hsplit]
  unfold twoOptSwap
  rw [List.drop_drop, harith, List.append_assoc]
  exact ((((r.drop (i + 1)).take (j - i)).reverse_perm.append_right
    (r.drop (j + 1))).append_left (r.take (i + 1)))

theorem passJ_perm (dist : Point → Point → ℚ) (n : ℕ) :
    ∀ (r : List Stop) (i j : ℕ) (improved : Bool), i ≤ j →
      (passJ dist n r i j improved).1.Perm r := by
  intro r i j improved
  induction r, i, j, improved using passJ.induct dist n with
  | case1 r i j improved hjn hc ih =>
    intro hij
    rw [passJ_accept hjn hc]
    exact (ih (by omega)).trans (twoOptSwap_perm hij)
  | case2 r i j improved hjn hc ih =>
    intro hij
    rw [passJ_reject hjn hc]
    exact ih (by omega)
  | case3 r i j improved hjn =>
    intro hij
    rw [passJ_done hjn]

theorem passI_perm (dist : Point → Point → ℚ) (n : ℕ) :
    ∀ (r : List Stop) (i : ℕ) (improved : Bool),
      (passI dist n r i improved).1.Perm r := by
  intro r i improved
  induction r, i, improved using passI.induct dist n with
  | case1 r i improved hin p ih =>
    rw [passI_step hin]
    exact ih.trans (passJ_perm dist n r i (i + 2) improved (by omega))
  | case2 r i improved hin =>
    rw [passI_done hin]

theorem optLoop_perm (dist : Point → Point → ℚ) (n : ℕ) :
    ∀ (fuel : ℕ) (r : List Stop), (optLoop dist n fuel r).Perm r := by
  intro fuel
  induction fuel with
  | zero => intro r; exact List.Perm.refl r
  | succ fuel ih =>
    intro r
    have hstep : optLoop dist n (fuel + 1) r =
        if (passI dist n r 0 false).2 then
          optLoop dist n fuel (passI dist n r 0 false).1
        else (passI dist n r 0 false).1 := rfl
    rw [hstep]
    by_cases himp : (passI dist n r 0 false).2
    · simp only [himp, if_true]
      exact (ih _).trans (passI_perm dist n r 0 false)
    · simp only [himp, if_false]
      exact passI_perm dist n r 0 false

theorem optimize2Opt_perm (dist : Point → Point → ℚ) (route : List Stop)
    (m : ℕ) : (optimize2Opt dist route m).Perm route := by
  unfold optimize2Opt
  by_cases h : route.length < 4
  · simp [h]
  · simp only [h, if_false]
    exact optLoop_perm dist route.length m route

/-- The stores the selection loop of optimizeRouteGreedy actually ranges
over: for each unvisited id in order, the first store of the input list
bearing that id. -/
def cands (stores : List Stop) (unvisited : List String) : List Stop :=
  unvisited.filterMap (fun sid => stores.find? (fun s => s.id == sid))

theorem selectNearest_none (dist : Point → Point → ℚ) (stores : List Stop)
    (current : Point) :
    ∀ (unvisited : List String) (acc : Option (Stop × ℚ)),
      selectNearest dist stores current unvisited acc = none →
      acc = none ∧ cands stores unvisited = [] := by
  intro unvisited
  induction unvisited with
  | nil => intro acc h; exact ⟨h, rfl⟩
  | cons sid rest ih =>
    intro acc h
    rw [selectNearest] at h
    match hf : stores.find? (fun s => s.id == sid) with
    | none =>
      rw [hf] at h
      obtain ⟨h1, h2⟩ := ih acc h
      refine ⟨h1, ?_⟩
      simpa [cands, hf] using h2
    | some store =>
      rw [hf] at h
      match acc with
      | none =>
        obtain ⟨h1, _⟩ := ih _ h
        exact absurd h1 (by simp)
      | some best =>
        by_cases hlt : dist current store.coordinates < best.2
        · simp only [hlt, if_true] at h
          obtain ⟨h1, _⟩ := ih _ h
          exact absurd h1 (by simp)
        · simp only [hlt, if_false] at h
          obtain ⟨h1, _⟩ := ih _ h
          exact absurd h1 (by simp)

theorem selectNearest_mem (dist : Point → Point → ℚ) (stores : List Stop)
    (current : Point) :
    ∀ (unvisited : List String) (acc : Option (Stop × ℚ)) (s : Stop) (m : ℚ),
      selectNearest dist stores current unvisited acc = some (s, m) →
      acc = some (s, m) ∨
        (s ∈ cands stores unvisited ∧ m = dist current s.coordinates) := by
  intro unvisited
  induction unvisited with
  | nil => intro acc s m h; exact Or.inl h
  | cons sid rest ih =>
    intro acc s m h
    rw [selectNearest] at h
    match hf : stores.find? (fun s => s.id == sid) with
    | none =>
      rw [hf] at h
      rcases ih acc s m h with h1 | ⟨h1, h2⟩
      · exact Or.inl h1
      · exact Or.inr ⟨by simp [cands, hf] at h1 ⊢; exact h1, h2⟩
    | some store =>
      rw [hf] at h
      have hcons : ∀ t : Stop, t ∈ cands stores rest →
          t ∈ cands stores (sid :: rest) := by
        intro t ht
        simp [cands, hf] at ht ⊢
        exact Or.inr ht
      have hstore : store ∈ cands stores (sid :: rest) := by
        simp [cands, hf]
      match acc with
      | none =>
        rcases ih _ s m h with h1 | ⟨h1, h2⟩
        · have hs : store = s ∧ dist current store.coordinates = m := by
            simpa using h1
          exact Or.inr ⟨hs.1 ▸ hstore, by rw [← hs.2, hs.1]⟩
        · exact Or.inr ⟨hcons s h1, h2⟩
      | some best =>
        by_cases hlt : dist current store.coordinates < best.2
        · simp only [hlt, if_true] at h
          rcases ih _ s m h with h1 | ⟨h1, h2⟩
          · have hs : store = s ∧ dist current store.coordinates = m := by
              simpa using h1
            exact Or.inr ⟨hs.1 ▸ hstore, by rw [← hs.2, hs.1]⟩
          · exact Or.inr ⟨hcons s h1, h2⟩
        · simp only [hlt, if_false] at h
          rcases ih _ s m h with h1 | ⟨h1, h2⟩
          · exact Or.inl h1
          · exact Or.inr ⟨hcons s h1, h2⟩

/-- The greedy loop emits, in some order, exactly the stores reachable
from the unvisited id list: its output is the accumulated route followed
by a permutation of the candidate stores. -/
theorem greedyLoop_perm (dist : Point → Point → ℚ) (stores : List Stop) :
    ∀ (fuel : ℕ) (current : Point) (unvisited : List String)
      (route : List Stop), unvisited.Nodup → unvisited.length ≤ fuel →
      (greedyLoop dist stores fuel current unvisited route).Perm
        (route ++ cands stores unvisited) := by
  intro fuel
  induction fuel with
  | zero =>
    intro current unvisited route hnd hlen
    have hnil : unvisited = [] := List.eq_nil_of_length_eq_zero (by omega)
    subst hnil
    simp [greedyLoop, cands]
  | succ fuel ih =>
    intro current unvisited route hnd hlen
    have hstep : greedyLoop dist stores (fuel + 1) current unvisited route =
        if unvisited.isEmpty then route
        else
          match selectNearest dist stores current unvisited none with
          | some sel =>
            greedyLoop dist stores fuel sel.1.coordinates
              (unvisited.erase sel.1.id) (route ++ [sel.1])
          | none => route := rfl
    rw [hstep]
    by_cases hemp : unvisited.isEmpty
    · rw [if_pos hemp]
      rw [List.isEmpty_iff] at hemp
      subst hemp
      simp [cands]
    · rw [if_neg hemp]
      match hsel : selectNearest dist stores current unvisited none with
      | none =>
        obtain ⟨-, hc⟩ := selectNearest_none dist stores current unvisited
          none hsel
        simp [hc]
      | some (s, m) =>
        rcases selectNearest_mem dist stores current unvisited none s m hsel
          with h1 | ⟨h1, -⟩
        · exact absurd h1 (by simp)
        · obtain ⟨sid, hsidmem, hfindeq⟩ :
              ∃ sid ∈ unvisited,
                stores.find? (fun t => t.id == sid) = some s := by
            simpa [cands, List.mem_filterMap] using h1
          have hsid : s.id = sid := by
            have hbeq := List.find?_some hfindeq
            exact eq_of_beq hbeq
          have hsmem : s.id ∈ unvisited := hsid ▸ hsidmem
          have hfind : stores.find? (fun t => t.id == s.id) = some s :=
            hsid ▸ hfindeq
          have herase_len : (unvisited.erase s.id).length =
              unvisited.length - 1 := List.length_erase_of_mem hsmem
          have hrec := ih s.coordinates (unvisited.erase s.id) (route ++ [s])
            (hnd.erase _) (by omega)
          refine hrec.trans ?_
          rw [List.append_assoc]
          refine List.Perm.append_left route ?_
          have hperm_ids : unvisited.Perm (s.id :: unvisited.erase s.id) :=
            List.perm_cons_erase hsmem
          have hcands_cons : cands stores (s.id :: unvisited.erase s.id) =
              s :: cands stores (unvisited.erase s.id) := by
            simp [cands, hfind]
          have hcall : (cands stores unvisited).Perm
              (cands stores (s.id :: unvisited.erase s.id)) :=
            hperm_ids.filterMap _
          rw [hcands_cons] at hcall
          exact hcall.symm

theorem mem_dedupFirst : ∀ (l : List String) (a : String),
    a ∈ dedupFirst l → a ∈ l := by
  intro l
  induction l using dedupFirst.induct with
  | case1 => intro a h; rw [dedupFirst] at h; exact h
  | case2 x xs ih =>
    intro a h
    rw [dedupFirst] at h
    rcases List.mem_cons.mp h with h | h
    · exact h ▸ List.mem_cons_self x xs
    · exact List.mem_cons_of_mem x (List.mem_of_mem_filter (ih a h))

theorem dedupFirst_nodup : ∀ l : List String, (dedupFirst l).Nodup := by
  intro l
  induction l using dedupFirst.induct with
  | case1 => rw [dedupFirst]; exact List.nodup_nil
  | case2 x xs ih =>
    rw [dedupFirst]
    refine List.nodup_cons.mpr ⟨fun hmem => ?_, ih⟩
    have := List.of_mem_filter (mem_dedupFirst _ _ hmem)
    simp at this

theorem dedupFirst_of_nodup : ∀ l : List String, l.Nodup → dedupFirst l = l := by
  intro l
  induction l using dedupFirst.induct with
  | case1 => intro h; rw [dedupFirst]
  | case2 x xs ih =>
    intro h
    obtain ⟨hx, hxs⟩ := List.nodup_cons.mp h
    have hfilter : xs.filter (fun y => y ≠ x) = xs :=
      List.filter_eq_self.mpr (fun b hb => by
        have hbx : b ≠ x := fun heq => hx (heq ▸ hb)
        simp [hbx])
    rw [hfilter] at ih
    rw [dedupFirst, hfilter, ih hxs]

/-- Looking up ids that all differ from the head store's id skips that
head store. -/
theorem cands_cons_skip (stores : List Stop) (st : Stop)
    (unvisited : List String) (h : ∀ sid ∈ unvisited, sid ≠ st.id) :
    cands (st :: stores) unvisited = cands stores unvisited := by
  induction unvisited with
  | nil => rfl
  | cons sid rest ih =>
    have hne : (st.id == sid) = false := by
      have := h sid (List.mem_cons_self sid rest)
      simp [beq_eq_false_iff_ne]
      exact fun heq => this heq.symm
    have hfind : (st :: stores).find? (fun s => s.id == sid) =
        stores.find? (fun s => s.id == sid) := by
      rw [List.find?_cons]
      simp [hne]
    simp only [cands, List.filterMap_cons, hfind]
    have hrest := ih (fun sid2 hm => h sid2 (List.mem_cons_of_mem sid hm))
    simp only [cands] at hrest
    rw [hrest]

theorem cands_map_id : ∀ stores : List Stop, (stores.map Stop.id).Nodup →
    cands stores (stores.map Stop.id) = stores := by
  intro stores
  induction stores with
  | nil => intro h; rfl
  | cons st rest ih =>
    intro h
    rw [List.map_cons] at h
    obtain ⟨hx, hxs⟩ := List.nodup_cons.mp h
    have hskip : cands (st :: rest) (rest.map Stop.id) =
        cands rest (rest.map Stop.id) :=
      cands_cons_skip rest st _ (fun sid hs heq => hx (heq ▸ hs))
    have hfst : (st :: rest).find? (fun s => s.id == st.id) = some st := by
      rw [List.find?_cons]
      simp
    simp only [List.map_cons, cands, List.filterMap_cons, hfst]
    have hrest : cands (st :: rest) (rest.map Stop.id) =
        cands rest (rest.map Stop.id) := hskip
    simp only [cands] at hrest
    rw [hrest]
    have := ih hxs
    simp only [cands] at this
    rw [this]

/-- C4: on inputs with unique stop ids the greedy constructor's output
carries exactly the input's multiset of ids, and for every route the
2-opt refiner's output is a permutation of the input route's stops — no
stop duplicated, none omitted. -/
theorem stops_preserved (dist : Point → Point → ℚ) (cur : Point)
    (stores : List Stop) (hids : (stores.map Stop.id).Nodup) :
    ((optimizeRouteGreedy dist cur stores).map Stop.id).Perm
        (stores.map Stop.id) ∧
      ∀ (route : List Stop) (m : ℕ), (optimize2Opt dist route m).Perm route := by
  refine ⟨?_, fun route m => optimize2Opt_perm dist route m⟩
  match stores with
  | [] => simp [optimizeRouteGreedy]
  | [s] => simp [optimizeRouteGreedy]
  | s1 :: s2 :: rest =>
    have hgl := greedyLoop_perm dist (s1 :: s2 :: rest)
      (dedupFirst ((s1 :: s2 :: rest).map Stop.id)).length cur
      (dedupFirst ((s1 :: s2 :: rest).map Stop.id)) []
      (dedupFirst_nodup _) (le_refl _)
    rw [dedupFirst_of_nodup _ hids] at hgl
    rw [cands_map_id _ hids] at hgl
    have heq : optimizeRouteGreedy dist cur (s1 :: s2 :: rest) =
        greedyLoop dist (s1 :: s2 :: rest)
          (dedupFirst ((s1 :: s2 :: rest).map Stop.id)).length cur
          (dedupFirst ((s1 :: s2 :: rest).map Stop.id)) [] := rfl
    rw [heq, dedupFirst_of_nodup _ hids]
    simpa using hgl.map Stop.id

/-- C4 witness: the id-multiset and permutation invariants instantiated on
a concrete two-stop input with unique ids. -/
theorem stops_preserved_witness :
    ((optimizeRouteGreedy taxiDist ⟨0, 0⟩ demoRoute).map Stop.id).Perm
        (demoRoute.map Stop.id) ∧
      ∀ (route : List Stop) (m : ℕ),
        (optimize2Opt taxiDist route m).Perm route :=
  stops_preserved taxiDist ⟨0, 0⟩ demoRoute (by simp [demoRoute])

/-- For each distinct id in order of first appearance, the first store of
the list bearing that id. -/
def firstOccs : List Stop → List Stop
  | [] => []
  | s :: rest => s :: firstOccs (rest.filter (fun t => t.id ≠ s.id))
termination_by l => l.length
decreasing_by
  simp only [List.length_cons]
  exact Nat.lt_succ_of_le (List.length_filter_le _ _)

theorem mem_firstOccs : ∀ (l : List Stop) (s : Stop),
    s ∈ firstOccs l → s ∈ l := by
  intro l
  induction l using firstOccs.induct with
  | case1 => intro s h; rw [firstOccs] at h; exact h
  | case2 x xs ih =>
    intro s h
    rw [firstOccs] at h
    rcases List.mem_cons.mp h with h | h
    · exact h ▸ List.mem_cons_self x xs
    · exact List.mem_cons_of_mem x (List.mem_of_mem_filter (ih s h))

/-- Filtering out the stores bearing one id does not change lookups of any
other id. -/
theorem find?_filter_ne (st : Stop) (sid : String) (hne : sid ≠ st.id) :
    ∀ rest : List Stop,
      (rest.filter (fun t => t.id ≠ st.id)).find? (fun s => s.id == sid) =
        rest.find? (fun s => s.id == sid) := by
  intro rest
  induction rest with
  | nil => rfl
  | cons t ts ih =>
    by_cases hid : t.id = st.id
    · have hp : (decide (t.id ≠ st.id)) = false := by simp [hid]
      have hq : (t.id == sid) = false := by
        simp only [beq_eq_false_iff_ne]
        exact fun heq => hne (by rw [← heq]; exact hid)
      rw [List.filter_cons, if_neg (by simp [hp]), List.find?_cons,
        hq, ih]
    · have hp : (decide (t.id ≠ st.id)) = true := by simp [hid]
      rw [List.filter_cons, if_pos (by simp [hp]), List.find?_cons,
        List.find?_cons]
      cases hq : (t.id == sid) with
      | true => rfl
      | false => exact ih

/-- The candidates computed from the deduplicated id list are exactly the
first-occurrence stores. -/
theorem cands_dedupFirst : ∀ stores : List Stop,
    cands stores (dedupFirst (stores.map Stop.id)) = firstOccs stores := by
  intro stores
  induction stores using firstOccs.induct with
  | case1 => simp [cands, dedupFirst, firstOccs]
  | case2 st rest ih =>
    rw [firstOccs, List.map_cons, dedupFirst]
    have hfilter : (rest.map Stop.id).filter (fun y => y ≠ st.id) =
        (rest.filter (fun t => t.id ≠ st.id)).map Stop.id :=
      List.filter_map Stop.id rest
    rw [hfilter]
    set rest2 := rest.filter (fun t => t.id ≠ st.id) with hrest2
    have hids_ne : ∀ sid ∈ dedupFirst (rest2.map Stop.id), sid ≠ st.id := by
      intro sid hmem
      have hmem2 : sid ∈ rest2.map Stop.id := mem_dedupFirst _ _ hmem
      obtain ⟨t, ht, hts⟩ := List.mem_map.mp hmem2
      have := List.of_mem_filter ht
      simp only [decide_eq_true_eq] at this
      exact hts ▸ this
    have hfst : (st :: rest).find? (fun s => s.id == st.id) = some st := by
      rw [List.find?_cons]; simp
    simp only [cands, List.filterMap_cons, hfst]
    congr 1
    have hskip : cands (st :: rest) (dedupFirst (rest2.map Stop.id)) =
        cands rest (dedupFirst (rest2.map Stop.id)) :=
      cands_cons_skip rest st _ hids_ne
    have hsame : cands rest (dedupFirst (rest2.map Stop.id)) =
        cands rest2 (dedupFirst (rest2.map Stop.id)) := by
      unfold cands
      refine List.filterMap_congr ?_
      intro sid hmem
      exact (find?_filter_ne st sid (hids_ne sid hmem) rest).symm
    simp only [cands] at hskip hsame ih
    rw [hskip, hsame, ih]

/-- Every first-occurrence store is what a lookup of its id over the whole
list returns. -/
theorem firstOccs_find? : ∀ (stores : List Stop) (s : Stop),
    s ∈ firstOccs stores → stores.find? (fun t => t.id == s.id) = some s := by
  intro stores
  induction stores using firstOccs.induct with
  | case1 => intro s h; rw [firstOccs] at h; exact absurd h (by simp)
  | case2 st rest ih =>
    intro s h
    rw [firstOccs] at h
    rcases List.mem_cons.mp h with h | h
    · subst h
      rw [List.find?_cons]; simp
    · have hsne : s.id ≠ st.id := by
        have hmem := mem_firstOccs _ _ h
        have := List.of_mem_filter hmem
        simpa using this
      have hih := ih s h
      rw [find?_filter_ne st s.id hsne rest] at hih
      rw [List.find?_cons]
      have : (st.id == s.id) = false := by
        simp only [beq_eq_false_iff_ne]
        exact fun heq => hsne heq.symm
      rw [this]
      exact hih

/-- The first-occurrence stores carry exactly the deduplicated ids, in
order. -/
theorem firstOccs_map_id : ∀ stores : List Stop,
    (firstOccs stores).map Stop.id = dedupFirst (stores.map Stop.id) := by
  intro stores
  induction stores using firstOccs.induct with
  | case1 => simp [firstOccs, dedupFirst]
  | case2 st rest ih =>
    rw [firstOccs, List.map_cons, List.map_cons, dedupFirst, ih,
      List.filter_map Stop.id rest]
    rfl

/-- C9: whatever the id multiplicities of the input, the greedy
constructor's output is a permutation of the first-occurrence stores: one
stop per distinct id — always the first input stop bearing that id — so
the output length is the number of distinct ids. -/
theorem duplicate_ids_first_occurrence (dist : Point → Point → ℚ)
    (cur : Point) (stores : List Stop) :
    (optimizeRouteGreedy dist cur stores).Perm (firstOccs stores) ∧
      (optimizeRouteGreedy dist cur stores).length =
        (dedupFirst (stores.map Stop.id)).length ∧
      ∀ s ∈ optimizeRouteGreedy dist cur stores,
        stores.find? (fun t => t.id == s.id) = some s := by
  have hcore : (optimizeRouteGreedy dist cur stores).Perm
      (firstOccs stores) := by
    match stores with
    | [] =>
      show List.Perm [] (firstOccs [])
      simp [firstOccs]
    | [s] =>
      show List.Perm [s] (firstOccs [s])
      simp [firstOccs]
    | s1 :: s2 :: rest =>
      have hgl := greedyLoop_perm dist (s1 :: s2 :: rest)
        (dedupFirst ((s1 :: s2 :: rest).map Stop.id)).length cur
        (dedupFirst ((s1 :: s2 :: rest).map Stop.id)) []
        (dedupFirst_nodup _) (le_refl _)
      rw [cands_dedupFirst] at hgl
      simpa using hgl
  refine ⟨hcore, ?_, ?_⟩
  · rw [hcore.length_eq]
    have := congrArg List.length (firstOccs_map_id stores)
    simpa using this
  · intro s hs
    exact firstOccs_find? stores s (hcore.mem_iff.mp hs)

/-- C9 witness: a concrete input with a duplicated id: the duplicate is
dropped and the first occurrence kept. -/
theorem duplicate_ids_witness :
    (optimizeRouteGreedy taxiDist ⟨0, 0⟩
        [⟨"a", ⟨1, 0⟩⟩, ⟨"b", ⟨5, 5⟩⟩, ⟨"a", ⟨9, 9⟩⟩]).Perm
      (firstOccs [⟨"a", ⟨1, 0⟩⟩, ⟨"b", ⟨5, 5⟩⟩, ⟨"a", ⟨9, 9⟩⟩]) ∧
      (optimizeRouteGreedy taxiDist ⟨0, 0⟩
          [⟨"a", ⟨1, 0⟩⟩, ⟨"b", ⟨5, 5⟩⟩, ⟨"a", ⟨9, 9⟩⟩]).length =
        (dedupFirst ([⟨"a", ⟨1, 0⟩⟩, ⟨"b", ⟨5, 5⟩⟩,
          (⟨"a", ⟨9, 9⟩⟩ : Stop)].map Stop.id)).length ∧
      ∀ s ∈ optimizeRouteGreedy taxiDist ⟨0, 0⟩
          [⟨"a", ⟨1, 0⟩⟩, ⟨"b", ⟨5, 5⟩⟩, ⟨"a", ⟨9, 9⟩⟩],
        [⟨"a", ⟨1, 0⟩⟩, ⟨"b", ⟨5, 5⟩⟩,
          (⟨"a", ⟨9, 9⟩⟩ : Stop)].find? (fun t => t.id == s.id) = some s :=
  duplicate_ids_first_occurrence taxiDist ⟨0, 0⟩
    [⟨"a", ⟨1, 0⟩⟩, ⟨"b", ⟨5, 5⟩⟩, ⟨"a", ⟨9, 9⟩⟩]

/-- The invariant of the candidate loop of findOptimalInsertionPoint: once
the running best holds the delta of an already-visited index, the final
best is the earliest index of minimum delta among that index and the
remaining candidates. -/
theorem fOIPLoop_spec (dist : Point → Point → ℚ) (cur : Point)
    (route : List Stop) (s : Stop) :
    ∀ (d i : ℕ) (bi : ℕ) (m : ℚ),
      route.length + 1 - i = d → bi < i → i ≤ route.length + 1 →
      m = insertDelta dist cur route s bi →
      ∃ rb rm, fOIPLoop dist cur route s i (bi, some m) = (rb, some rm) ∧
        rm = insertDelta dist cur route s rb ∧
        ((rb = bi ∧ rm = m) ∨ (i ≤ rb ∧ rb ≤ route.length ∧ rm < m)) ∧
        (∀ k, i ≤ k → k ≤ route.length →
          rm ≤ insertDelta dist cur route s k) ∧
        (∀ k, i ≤ k → k ≤ route.length → k < rb →
          rm < insertDelta dist cur route s k) := by
  intro d
  induction d with
  | zero =>
    intro i bi m hd hbi hi hm
    have hle : ¬ i ≤ route.length := by omega
    rw [fOIPLoop_done hle]
    exact ⟨bi, m, rfl, hm, Or.inl ⟨rfl, rfl⟩,
      fun k hk1 hk2 => absurd hk2 (by omega),
      fun k hk1 hk2 _ => absurd hk2 (by omega)⟩
  | succ d ihd =>
    intro i bi m hd hbi hi hm
    by_cases hle : i ≤ route.length
    · rw [fOIPLoop_step hle]
      by_cases hlt : insertDelta dist cur route s i < m
      · have hb2 : (match (bi, some m).2 with
            | none => (i, some (insertDelta dist cur route s i))
            | some m2 =>
              if insertDelta dist cur route s i < m2 then
                (i, some (insertDelta dist cur route s i))
              else (bi, some m2)) =
            (i, some (insertDelta dist cur route s i)) := by
          simp [hlt]
        rw [hb2]
        obtain ⟨rb, rm, heq, hrmeq, hdisj, hmin, hstrict⟩ :=
          ihd (i + 1) i (insertDelta dist cur route s i) (by omega)
            (by omega) (by omega) rfl
        refine ⟨rb, rm, heq, hrmeq, ?_, ?_, ?_⟩
        · rcases hdisj with ⟨h1, h2⟩ | ⟨h1, h2, h3⟩
          · exact Or.inr ⟨by omega, by omega, by rw [h2]; exact hlt⟩
          · exact Or.inr ⟨by omega, h2, by linarith⟩
        · intro k hk1 hk2
          rcases Nat.eq_or_lt_of_le hk1 with hk | hk
          · subst hk
            rcases hdisj with ⟨h1, h2⟩ | ⟨h1, h2, h3⟩
            · rw [h2]
            · linarith
          · exact hmin k (by omega) hk2
        · intro k hk1 hk2 hk3
          rcases Nat.eq_or_lt_of_le hk1 with hk | hk
          · subst hk
            rcases hdisj with ⟨h1, h2⟩ | ⟨h1, h2, h3⟩
            · omega
            · linarith
          · exact hstrict k (by omega) hk2 hk3
      · have hb2 : (match (bi, some m).2 with
            | none => (i, some (insertDelta dist cur route s i))
            | some m2 =>
              if insertDelta dist cur route s i < m2 then
                (i, some (insertDelta dist cur route s i))
              else (bi, some m2)) = (bi, some m) := by
          simp [hlt]
        rw [hb2]
        obtain ⟨rb, rm, heq, hrmeq, hdisj, hmin, hstrict⟩ :=
          ihd (i + 1) bi m (by omega) (by omega) (by omega) hm
        refine ⟨rb, rm, heq, hrmeq, ?_, ?_, ?_⟩
        · rcases hdisj with ⟨h1, h2⟩ | ⟨h1, h2, h3⟩
          · exact Or.inl ⟨h1, h2⟩
          · exact Or.inr ⟨by omega, h2, h3⟩
        · intro k hk1 hk2
          rcases Nat.eq_or_lt_of_le hk1 with hk | hk
          · subst hk
            have hrm_le : rm ≤ m := by
              rcases hdisj with ⟨h1, h2⟩ | ⟨h1, h2, h3⟩
              · rw [h2]
              · linarith
            linarith [not_lt.mp hlt]
          · exact hmin k (by omega) hk2
        · intro k hk1 hk2 hk3
          rcases Nat.eq_or_lt_of_le hk1 with hk | hk
          · subst hk
            rcases hdisj with ⟨h1, h2⟩ | ⟨h1, h2, h3⟩
            · omega
            · have := not_lt.mp hlt
              linarith
          · exact hstrict k (by omega) hk2 hk3
    · omega

/-- C6: findOptimalInsertionPoint always returns an index within
[0, route.length]; it returns 0 on the empty route, and on a non-empty
route it returns the index of minimum insertion delta over the baseline,
the earliest such index in case of ties. -/
theorem insertion_point_spec (dist : Point → Point → ℚ) (cur : Point)
    (route : List Stop) (newStore : Stop) :
    findOptimalInsertionPoint dist cur route newStore ≤ route.length ∧
      (route = [] → findOptimalInsertionPoint dist cur route newStore = 0) ∧
      (route ≠ [] →
        (∀ k, k ≤ route.length →
          insertDelta dist cur route newStore
              (findOptimalInsertionPoint dist cur route newStore) ≤
            insertDelta dist cur route newStore k) ∧
        (∀ k, k < findOptimalInsertionPoint dist cur route newStore →
          insertDelta dist cur route newStore
              (findOptimalInsertionPoint dist cur route newStore) <
            insertDelta dist cur route newStore k)) := by
  cases route with
  | nil => exact ⟨Nat.le_refl 0, fun _ => rfl, fun h => absurd rfl h⟩
  | cons r0 rest =>
    set route := r0 :: rest with hroute
    have hlen : 1 ≤ route.length := by rw [hroute]; simp
    have hstep : findOptimalInsertionPoint dist cur route newStore =
        (fOIPLoop dist cur route newStore 1
          (0, some (insertDelta dist cur route newStore 0))).1 := by
      show (fOIPLoop dist cur route newStore 0 (route.length, none)).1 = _
      rw [fOIPLoop_step (by omega)]
    obtain ⟨rb, rm, heq, hrmeq, hdisj, hmin, hstrict⟩ :=
      fOIPLoop_spec dist cur route newStore (route.length + 1 - 1) 1 0
        (insertDelta dist cur route newStore 0) rfl (by omega) (by omega) rfl
    have hfopt : findOptimalInsertionPoint dist cur route newStore = rb := by
      rw [hstep, heq]
    rw [hfopt]
    have hrb_le : rb ≤ route.length := by
      rcases hdisj with ⟨h1, _⟩ | ⟨_, h2, _⟩
      · omega
      · exact h2
    refine ⟨hrb_le, fun hc => absurd hc (by rw [hroute]; simp),
      fun _ => ⟨?_, ?_⟩⟩
    · intro k hk
      rcases Nat.eq_zero_or_pos k with hk0 | hk0
      · subst hk0
        rw [← hrmeq]
        rcases hdisj with ⟨h1, h2⟩ | ⟨h1, h2, h3⟩
        · rw [h2]
        · linarith
      · rw [← hrmeq]
        exact hmin k (by omega) hk
    · intro k hk
      rcases Nat.eq_zero_or_pos k with hk0 | hk0
      · subst hk0
        rw [← hrmeq]
        rcases hdisj with ⟨h1, h2⟩ | ⟨h1, h2, h3⟩
        · omega
        · linarith
      · rw [← hrmeq]
        exact hstrict k (by omega) (by omega) hk

/-- C6 witness: the insertion-point contract instantiated on a concrete
route, with the non-empty branch discharged. -/
theorem insertion_point_witness :
    findOptimalInsertionPoint taxiDist ⟨0, 0⟩ demoRoute ⟨"c", ⟨2, 2⟩⟩ ≤
        demoRoute.length ∧
      ∀ k, k ≤ demoRoute.length →
        insertDelta taxiDist ⟨0, 0⟩ demoRoute ⟨"c", ⟨2, 2⟩⟩
            (findOptimalInsertionPoint taxiDist ⟨0, 0⟩ demoRoute
              ⟨"c", ⟨2, 2⟩⟩) ≤
          insertDelta taxiDist ⟨0, 0⟩ demoRoute ⟨"c", ⟨2, 2⟩⟩ k :=
  ⟨(insertion_point_spec taxiDist ⟨0, 0⟩ demoRoute ⟨"c", ⟨2, 2⟩⟩).1,
    ((insertion_point_spec taxiDist ⟨0, 0⟩ demoRoute ⟨"c", ⟨2, 2⟩⟩).2.2
      (by simp [demoRoute])).1⟩

theorem selectNearest_cons_none {dist : Point → Point → ℚ}
    {stores : List Stop} {current : Point} {sid : String}
    {rest : List String} {acc : Option (Stop × ℚ)}
    (h : stores.find? (fun s => s.id == sid) = none) :
    selectNearest dist stores current (sid :: rest) acc =
      selectNearest dist stores current rest acc := by
  rw [selectNearest, h]

theorem selectNearest_cons_some_start {dist : Point → Point → ℚ}
    {stores : List Stop} {current : Point} {sid : String}
    {rest : List String} {store : Stop}
    (h : stores.find? (fun s => s.id == sid) = some store) :
    selectNearest dist stores current (sid :: rest) none =
      selectNearest dist stores current rest
        (some (store, dist current store.coordinates)) := by
  rw [selectNearest, h]

theorem selectNearest_cons_some_lt {dist : Point → Point → ℚ}
    {stores : List Stop} {current : Point} {sid : String}
    {rest : List String} {store s0 : Stop} {m0 : ℚ}
    (h : stores.find? (fun s => s.id == sid) = some store)
    (hlt : dist current store.coordinates < m0) :
    selectNearest dist stores current (sid :: rest) (some (s0, m0)) =
      selectNearest dist stores current rest
        (some (store, dist current store.coordinates)) := by
  rw [selectNearest, h]
  simp [hlt]

theorem selectNearest_cons_some_ge {dist : Point → Point → ℚ}
    {stores : List Stop} {current : Point} {sid : String}
    {rest : List String} {store s0 : Stop} {m0 : ℚ}
    (h : stores.find? (fun s => s.id == sid) = some store)
    (hge : ¬ dist current store.coordinates < m0) :
    selectNearest dist stores current (sid :: rest) (some (s0, m0)) =
      selectNearest dist stores current rest (some (s0, m0)) := by
  rw [selectNearest, h]
  simp [hge]

/-- The running-minimum scan with a seeded best returns the first entry of
the seeded candidate list attaining the minimum distance: everything
before it is strictly farther, everything after it no closer. -/
theorem selectNearest_firstMin (dist : Point → Point → ℚ)
    (stores : List Stop) (current : Point) :
    ∀ (unvisited : List String) (s0 : Stop) (m0 : ℚ),
      m0 = dist current s0.coordinates →
      ∃ s m, selectNearest dist stores current unvisited
          (some (s0, m0)) = some (s, m) ∧
        m = dist current s.coordinates ∧
        ∃ pre post, s0 :: cands stores unvisited = pre ++ s :: post ∧
          (∀ t ∈ pre, m < dist current t.coordinates) ∧
          (∀ t ∈ post, m ≤ dist current t.coordinates) := by
  intro unvisited
  induction unvisited with
  | nil =>
    intro s0 m0 hm0
    exact ⟨s0, m0, rfl, hm0, [], [], by simp [cands, selectNearest],
      by simp, by simp⟩
  | cons sid rest ih =>
    intro s0 m0 hm0
    match hf : stores.find? (fun s => s.id == sid) with
    | none =>
      have hcands : cands stores (sid :: rest) = cands stores rest := by
        simp [cands, hf]
      obtain ⟨s, m, heq, hmeq, pre, post, hdec, hpre, hpost⟩ := ih s0 m0 hm0
      exact ⟨s, m, (selectNearest_cons_none hf).trans heq, hmeq, pre, post,
        by rw [hcands]; exact hdec, hpre, hpost⟩
    | some store =>
      have hcands : cands stores (sid :: rest) =
          store :: cands stores rest := by
        simp [cands, hf]
      by_cases hlt : dist current store.coordinates < m0
      · obtain ⟨s, m, heq, hmeq, pre, post, hdec, hpre, hpost⟩ :=
          ih store (dist current store.coordinates) rfl
        have hany : ∀ t ∈ store :: cands stores rest,
            m ≤ dist current t.coordinates := by
          intro t ht
          rw [hdec] at ht
          rcases List.mem_append.mp ht with ht | ht
          · exact le_of_lt (hpre t ht)
          · rcases List.mem_cons.mp ht with ht | ht
            · rw [← ht] at hmeq; exact le_of_eq hmeq
            · exact hpost t ht
        refine ⟨s, m, (selectNearest_cons_some_lt hf hlt).trans heq, hmeq,
          s0 :: pre, post, ?_, ?_, hpost⟩
        · rw [hcands, List.cons_append, hdec]
        · intro t ht
          rcases List.mem_cons.mp ht with ht | ht
          · subst ht
            rw [← hm0]
            calc m ≤ dist current store.coordinates :=
                  hany store (List.mem_cons_self _ _)
              _ < m0 := hlt
          · exact hpre t ht
      · obtain ⟨s, m, heq, hmeq, pre, post, hdec, hpre, hpost⟩ :=
          ih s0 m0 hm0
        refine ⟨s, m, (selectNearest_cons_some_ge hf hlt).trans heq,
          hmeq, ?_⟩
        match pre, hdec with
        | [], hdec =>
          have hs : s = s0 := by
            have := hdec
            simp only [List.nil_append] at this
            exact (List.cons.injEq .. ▸ this).1.symm
          refine ⟨[], store :: post, ?_, by simp, ?_⟩
          · rw [hcands, List.nil_append]
            have hpost_eq : post = cands stores rest := by
              have := hdec
              simp only [List.nil_append] at this
              exact ((List.cons.injEq .. ▸ this).2).symm
            rw [hs, hpost_eq]
          · intro t ht
            rcases List.mem_cons.mp ht with ht | ht
            · subst ht
              rw [hmeq, hs, ← hm0]
              exact not_lt.mp hlt
            · exact hpost t ht
        | p0 :: pre2, hdec =>
          have hp0 : p0 = s0 := by
            have := hdec
            simp only [List.cons_append] at this
            exact ((List.cons.injEq .. ▸ this).1).symm
          have hrest_dec : cands stores rest = pre2 ++ s :: post := by
            have := hdec
            simp only [List.cons_append] at this
            exact ((List.cons.injEq .. ▸ this).2)
          refine ⟨s0 :: store :: pre2, post, ?_, ?_, hpost⟩
          · rw [hcands]
            simp only [List.cons_append]
            rw [hrest_dec]
          · intro t ht
            rcases List.mem_cons.mp ht with ht | ht
            · subst ht
              exact hp0 ▸ hpre p0 (List.mem_cons_self _ _)
            · rcases List.mem_cons.mp ht with ht | ht
              · subst ht
                have hm_lt_m0 : m < m0 :=
                  hm0 ▸ (hp0 ▸ hpre p0 (List.mem_cons_self _ _))
                exact lt_of_lt_of_le hm_lt_m0 (not_lt.mp hlt)
              · exact hpre t (List.mem_cons_of_mem _ ht)

/-- The selection step returns the first candidate (in unvisited-id
order) attaining the minimum distance from the current position. -/
theorem selectNearest_firstMin_cands (dist : Point → Point → ℚ)
    (stores : List Stop) (current : Point) :
    ∀ (unvisited : List String) (s : Stop) (m : ℚ),
      selectNearest dist stores current unvisited none = some (s, m) →
      m = dist current s.coordinates ∧
      ∃ pre post, cands stores unvisited = pre ++ s :: post ∧
        (∀ t ∈ pre, m < dist current t.coordinates) ∧
        (∀ t ∈ post, m ≤ dist current t.coordinates) := by
  intro unvisited
  induction unvisited with
  | nil =>
    intro s m h
    exact absurd h (by simp [selectNearest])
  | cons sid rest ih =>
    intro s m h
    match hf : stores.find? (fun s => s.id == sid) with
    | none =>
      rw [selectNearest_cons_none hf] at h
      obtain ⟨hmeq, pre, post, hdec, hpre, hpost⟩ := ih s m h
      have hcands : cands stores (sid :: rest) = cands stores rest := by
        simp [cands, hf]
      exact ⟨hmeq, pre, post, by rw [hcands]; exact hdec, hpre, hpost⟩
    | some store =>
      rw [selectNearest_cons_some_start hf] at h
      obtain ⟨s', m', heq, hmeq, pre, post, hdec, hpre, hpost⟩ :=
        selectNearest_firstMin dist stores current rest store
          (dist current store.coordinates) rfl
      have hinj : s' = s ∧ m' = m := by
        have := heq.symm.trans h
        simpa using this
      obtain ⟨hs', hm'⟩ := hinj
      subst hs'
      subst hm'
      have hcands : cands stores (sid :: rest) =
          store :: cands stores rest := by
        simp [cands, hf]
      exact ⟨hmeq, pre, post, by rw [hcands]; exact hdec, hpre, hpost⟩

/-- With ids unique in the input, looking up the id of a member store
returns that store itself. -/
theorem find?_id_unique : ∀ (stores : List Stop),
    (stores.map Stop.id).Nodup → ∀ t ∈ stores,
      stores.find? (fun s => s.id == t.id) = some t := by
  intro stores
  induction stores with
  | nil => intro _ t ht; exact absurd ht (by simp)
  | cons st rest ih =>
    intro hnd t ht
    rw [List.map_cons] at hnd
    obtain ⟨hx, hxs⟩ := List.nodup_cons.mp hnd
    rcases List.mem_cons.mp ht with ht | ht
    · subst ht
      rw [List.find?_cons]
      simp
    · have hne : (st.id == t.id) = false := by
        simp only [beq_eq_false_iff_ne]
        intro heq
        exact hx (heq ▸ List.mem_map_of_mem Stop.id ht)
      rw [List.find?_cons, hne]
      exact ih hxs t ht

/-- A decomposition of the candidate list lifts to a decomposition of the
input store list: unvisited stores on each side of the chosen one stay on
that side. -/
theorem candsDecomp : ∀ (stores : List Stop) (unvisited : List String),
    List.Sublist unvisited (stores.map Stop.id) →
    (stores.map Stop.id).Nodup →
    ∀ (pre_c post_c : List Stop) (s : Stop),
      cands stores unvisited = pre_c ++ s :: post_c →
      ∃ pre post, stores = pre ++ s :: post ∧
        (∀ t ∈ pre, t.id ∈ unvisited → t ∈ pre_c) ∧
        (∀ t ∈ post, t.id ∈ unvisited → t ∈ post_c) := by
  intro stores
  induction stores with
  | nil =>
    intro unvisited hsub hnd pre_c post_c s hdec
    have : unvisited = [] := List.sublist_nil.mp (by simpa using hsub)
    subst this
    exact absurd hdec (by simp [cands])
  | cons st rest ih =>
    intro unvisited hsub hnd pre_c post_c s hdec
    rw [List.map_cons] at hsub hnd
    obtain ⟨hx, hxs⟩ := List.nodup_cons.mp hnd
    rcases List.sublist_cons_iff.mp hsub with hsub' | ⟨u', hu', hsub'⟩
    · -- st.id is not in unvisited
      have hne : ∀ sid ∈ unvisited, sid ≠ st.id := by
        intro sid hmem heq
        exact hx (heq ▸ hsub'.mem hmem)
      rw [cands_cons_skip rest st unvisited hne] at hdec
      obtain ⟨pre, post, hst, hpre, hpost⟩ :=
        ih unvisited hsub' hxs pre_c post_c s hdec
      refine ⟨st :: pre, post, by rw [hst]; rfl, ?_, hpost⟩
      intro t ht hmem
      rcases List.mem_cons.mp ht with ht | ht
      · subst ht
        exact absurd rfl (hne t.id hmem)
      · exact hpre t ht hmem
    · -- unvisited = st.id :: u'
      subst hu'
      have hfst : (st :: rest).find? (fun s => s.id == st.id) = some st := by
        rw [List.find?_cons]; simp
      have hne : ∀ sid ∈ u', sid ≠ st.id := by
        intro sid hmem heq
        exact hx (heq ▸ hsub'.mem hmem)
      have hcands : cands (st :: rest) (st.id :: u') =
          st :: cands rest u' := by
        simp only [cands, List.filterMap_cons, hfst]
        have := cands_cons_skip rest st u' hne
        simp only [cands] at this
        rw [this]
      rw [hcands] at hdec
      match pre_c, hdec with
      | [], hdec =>
        have hs : st = s ∧ cands rest u' = post_c := by
          have := hdec
          simp only [List.nil_append] at this
          exact ⟨(List.cons.injEq .. ▸ this).1, (List.cons.injEq .. ▸ this).2⟩
        refine ⟨[], rest, by rw [hs.1, List.nil_append], by simp, ?_⟩
        intro t ht hmem
        rcases List.mem_cons.mp hmem with hmem | hmem
        · exact absurd hmem.symm
            (fun heq => hx (heq ▸ List.mem_map_of_mem Stop.id ht))
        · rw [← hs.2]
          have hfind : rest.find? (fun s => s.id == t.id) = some t :=
            find?_id_unique rest hxs t ht
          exact List.mem_filterMap.mpr ⟨t.id, hmem, hfind⟩
      | p0 :: pre_c2, hdec =>
        have hp0 : st = p0 ∧ cands rest u' = pre_c2 ++ s :: post_c := by
          have := hdec
          simp only [List.cons_append] at this
          exact ⟨(List.cons.injEq .. ▸ this).1, (List.cons.injEq .. ▸ this).2⟩
        obtain ⟨pre, post, hst, hpre, hpost⟩ :=
          ih u' hsub' hxs pre_c2 post_c s hp0.2
        refine ⟨st :: pre, post, by rw [hst]; rfl, ?_, ?_⟩
        · intro t ht hmem
          rcases List.mem_cons.mp ht with ht | ht
          · subst ht
            exact hp0.1 ▸ List.mem_cons_self p0 pre_c2
          · rcases List.mem_cons.mp hmem with hmem | hmem
            · have htrest : t ∈ rest := by
                rw [hst]
                exact List.mem_append.mpr (Or.inl ht)
              exact absurd hmem.symm
                (fun heq => hx (heq ▸ List.mem_map_of_mem Stop.id htrest))
            · exact List.mem_cons_of_mem p0 (hpre t ht hmem)
        · intro t ht hmem
          rcases List.mem_cons.mp hmem with hmem | hmem
          · have htrest : t ∈ rest := by
              rw [hst]
              exact List.mem_append.mpr (Or.inr (List.mem_cons_of_mem s ht))
            exact absurd hmem.symm
              (fun heq => hx (heq ▸ List.mem_map_of_mem Stop.id htrest))
          · exact hpost t ht hmem

/-- C5: at every selection step (any unvisited id list drawn in order
from an input with unique ids), the chosen stop attains the minimum
distance from the current position, every unvisited stop strictly earlier
in the original input list is strictly farther, and every unvisited stop
later is no closer — the earliest-in-input tie-break. -/
theorem greedy_tiebreak_earliest (dist : Point → Point → ℚ)
    (stores : List Stop) (current : Point) (unvisited : List String)
    (hsub : List.Sublist unvisited (stores.map Stop.id))
    (hnd : (stores.map Stop.id).Nodup) (s : Stop) (m : ℚ)
    (hsel : selectNearest dist stores current unvisited none = some (s, m)) :
    m = dist current s.coordinates ∧
      ∃ pre post, stores = pre ++ s :: post ∧
        (∀ t ∈ pre, t.id ∈ unvisited → m < dist current t.coordinates) ∧
        (∀ t ∈ post, t.id ∈ unvisited → m ≤ dist current t.coordinates) := by
  obtain ⟨hmeq, pre_c, post_c, hdec, hpre_c, hpost_c⟩ :=
    selectNearest_firstMin_cands dist stores current unvisited s m hsel
  obtain ⟨pre, post, hst, hpre, hpost⟩ :=
    candsDecomp stores unvisited hsub hnd pre_c post_c s hdec
  exact ⟨hmeq, pre, post, hst,
    fun t ht hmem => hpre_c t (hpre t ht hmem),
    fun t ht hmem => hpost_c t (hpost t ht hmem)⟩

/-- A concrete input with two stops tied at distance 1 from the origin:
"a" comes first in the input list. -/
def tieStores : List Stop := [⟨"a", ⟨1, 0⟩⟩, ⟨"b", ⟨0, 1⟩⟩, ⟨"c", ⟨3, 0⟩⟩]

theorem tieStores_select_eval :
    selectNearest taxiDist tieStores ⟨0, 0⟩ (tieStores.map Stop.id) none =
      some (⟨"a", ⟨1, 0⟩⟩, 1) := by
  norm_num [selectNearest, tieStores, List.find?, taxiDist,
    show (("a" : String) == "b") = false from rfl,
    show (("a" : String) == "c") = false from rfl,
    show (("b" : String) == "c") = false from rfl,
    show (("b" : String) == "a") = false from rfl,
    show (("c" : String) == "a") = false from rfl,
    show (("c" : String) == "b") = false from rfl,
    show (("a" : String) == "a") = true from rfl,
    show (("b" : String) == "b") = true from rfl,
    show (("c" : String) == "c") = true from rfl]

/-- C5 witness: on the tied input the selection picks the stop "a", the
one appearing earliest in the input list among the two at distance 1. -/
theorem greedy_tiebreak_witness :
    (1 : ℚ) = taxiDist ⟨0, 0⟩ (⟨"a", ⟨1, 0⟩⟩ : Stop).coordinates ∧
      ∃ pre post, tieStores = pre ++ (⟨"a", ⟨1, 0⟩⟩ : Stop) :: post ∧
        (∀ t ∈ pre, t.id ∈ tieStores.map Stop.id →
          (1 : ℚ) < taxiDist ⟨0, 0⟩ t.coordinates) ∧
        (∀ t ∈ post, t.id ∈ tieStores.map Stop.id →
          (1 : ℚ) ≤ taxiDist ⟨0, 0⟩ t.coordinates) :=
  greedy_tiebreak_earliest taxiDist tieStores ⟨0, 0⟩ (tieStores.map Stop.id)
    (List.Sublist.refl _) (by decide) ⟨"a", ⟨1, 0⟩⟩ 1 tieStores_select_eval

/-- The first improving j for a fixed i, scanning j upward — the order of
the source's inner loop. -/
def fiJ (dist : Point → Point → ℚ) (n : ℕ) (r : List Stop)
    (i j : ℕ) : Option ℕ :=
  if j < n then
    if swappedDistExpr dist r i j < currentDistExpr dist r i j then some j
    else fiJ dist n r i (j + 1)
  else none
termination_by n - j

/-- The first improving pair (i, j) in the lexicographic scan order of the
source's nested loops, starting at row i. -/
def fiI (dist : Point → Point → ℚ) (n : ℕ) (r : List Stop)
    (i : ℕ) : Option (ℕ × ℕ) :=
  if i + 2 < n then
    match fiJ dist n r i (i + 2) with
    | some j => some (i, j)
    | none => fiI dist n r (i + 1)
  else none
termination_by n - i

/-- The lexicographically first strictly improving candidate pair of a
pass over r, in the scan order of the source. -/
def firstImproving (dist : Point → Point → ℚ) (n : ℕ)
    (r : List Stop) : Option (ℕ × ℕ) :=
  fiI dist n r 0

/-- Modelled from the spec: the restart-scan semantics the claim
describes — after each accepted move the scan starts over from the top of
the pass, so the next move applied is always the first improving pair of
the mutated route; iterated to a fixed point, bounded by fuel. -/
def restartPass (dist : Point → Point → ℚ) (n : ℕ) :
    ℕ → List Stop → List Stop
  | 0, r => r
  | Nat.succ fuel, r =>
    match firstImproving dist n r with
    | some (i, j) => restartPass dist n fuel (twoOptSwap r i j)
    | none => r

theorem fiJ_done {dist : Point → Point → ℚ} {n : ℕ} {r : List Stop}
    {i j : ℕ} (h : ¬ j < n) : fiJ dist n r i j = none := by
  rw [fiJ]; simp [h]

theorem fiJ_accept {dist : Point → Point → ℚ} {n : ℕ} {r : List Stop}
    {i j : ℕ} (h : j < n)
    (hc : swappedDistExpr dist r i j < currentDistExpr dist r i j) :
    fiJ dist n r i j = some j := by
  rw [fiJ]; simp [h, hc]

theorem fiJ_reject {dist : Point → Point → ℚ} {n : ℕ} {r : List Stop}
    {i j : ℕ} (h : j < n)
    (hc : ¬ swappedDistExpr dist r i j < currentDistExpr dist r i j) :
    fiJ dist n r i j = fiJ dist n r i (j + 1) := by
  rw [fiJ]; simp [h, hc]

theorem fiI_done {dist : Point → Point → ℚ} {n : ℕ} {r : List Stop}
    {i : ℕ} (h : ¬ i + 2 < n) : fiI dist n r i = none := by
  rw [fiI]; simp [h]

theorem fiI_some {dist : Point → Point → ℚ} {n : ℕ} {r : List Stop}
    {i j : ℕ} (h : i + 2 < n) (hj : fiJ dist n r i (i + 2) = some j) :
    fiI dist n r i = some (i, j) := by
  rw [fiI]; simp [h, hj]

theorem fiI_skip {dist : Point → Point → ℚ} {n : ℕ} {r : List Stop}
    {i : ℕ} (h : i + 2 < n) (hj : fiJ dist n r i (i + 2) = none) :
    fiI dist n r i = fiI dist n r (i + 1) := by
  rw [fiI]; simp [h, hj]

theorem restartPass_zero {dist : Point → Point → ℚ} {n : ℕ}
    {r : List Stop} : restartPass dist n 0 r = r := rfl

theorem restartPass_move {dist : Point → Point → ℚ} {n fuel : ℕ}
    {r : List Stop} {i j : ℕ}
    (h : firstImproving dist n r = some (i, j)) :
    restartPass dist n (fuel + 1) r =
      restartPass dist n fuel (twoOptSwap r i j) := by
  show (match firstImproving dist n r with
    | some (i, j) => restartPass dist n fuel (twoOptSwap r i j)
    | none => r) = _
  rw [h]

theorem restartPass_fix {dist : Point → Point → ℚ} {n fuel : ℕ}
    {r : List Stop} (h : firstImproving dist n r = none) :
    restartPass dist n (fuel + 1) r = r := by
  show (match firstImproving dist n r with
    | some (i, j) => restartPass dist n fuel (twoOptSwap r i j)
    | none => r) = _
  rw [h]

/-- A row of the scan with no improving pair leaves the route and the
improved flag untouched. -/
theorem passJ_of_fiJ_none (dist : Point → Point → ℚ) (n : ℕ) :
    ∀ (r : List Stop) (i j : ℕ) (improved : Bool),
      fiJ dist n r i j = none →
      passJ dist n r i j improved = (r, improved) := by
  intro r i j improved
  induction r, i, j, improved using passJ.induct dist n with
  | case1 r i j improved hjn hc ih =>
    intro hfi
    rw [fiJ_accept hjn hc] at hfi
    exact absurd hfi (by simp)
  | case2 r i j improved hjn hc ih =>
    intro hfi
    rw [fiJ_reject hjn hc] at hfi
    rw [passJ_reject hjn hc]
    exact ih hfi
  | case3 r i j improved hjn =>
    intro _
    exact passJ_done hjn

/-- The inner loop applies the first improving swap of its row and then
continues the same row at the next column, j + 1. -/
theorem passJ_of_fiJ_some (dist : Point → Point → ℚ) (n : ℕ) :
    ∀ (r : List Stop) (i j : ℕ) (improved : Bool) (j' : ℕ),
      fiJ dist n r i j = some j' →
      swappedDistExpr dist r i j' < currentDistExpr dist r i j' ∧
        passJ dist n r i j improved =
          passJ dist n (twoOptSwap r i j') i (j' + 1) true := by
  intro r i j improved
  induction r, i, j, improved using passJ.induct dist n with
  | case1 r i j improved hjn hc ih =>
    intro j' hfi
    rw [fiJ_accept hjn hc] at hfi
    have hj : j = j' := by simpa using hfi
    subst hj
    exact ⟨hc, passJ_accept hjn hc⟩
  | case2 r i j improved hjn hc ih =>
    intro j' hfi
    rw [fiJ_reject hjn hc] at hfi
    obtain ⟨h1, h2⟩ := ih j' hfi
    exact ⟨h1, (passJ_reject hjn hc).trans h2⟩
  | case3 r i j improved hjn =>
    intro j' hfi
    rw [fiJ_done hjn] at hfi
    exact absurd hfi (by simp)

/-- A pass over a route with no improving pair returns the route unchanged
with the improved flag it was given. -/
theorem passI_of_fiI_none (dist : Point → Point → ℚ) (n : ℕ) :
    ∀ (d i : ℕ) (r : List Stop) (improved : Bool), n - i = d →
      fiI dist n r i = none → passI dist n r i improved = (r, improved) := by
  intro d
  induction d with
  | zero =>
    intro i r improved hd hfi
    exact passI_done (by omega)
  | succ d ihd =>
    intro i r improved hd hfi
    by_cases hin : i + 2 < n
    · rw [fiI, if_pos hin] at hfi
      match hj : fiJ dist n r i (i + 2) with
      | some j =>
        rw [hj] at hfi
        exact absurd hfi (by simp)
      | none =>
        rw [hj] at hfi
        have hp := passJ_of_fiJ_none dist n r i (i + 2) improved hj
        rw [passI_step hin, hp]
        exact ihd (i + 1) r improved (by omega) hfi
    · exact passI_done hin

/-- A pass whose first improving pair (in scan order) is (i', j') applies
that swap first and then continues the scan from the next candidate of the
same pass. -/
theorem passI_of_fiI_some (dist : Point → Point → ℚ) (n : ℕ) :
    ∀ (d i : ℕ) (r : List Stop) (improved : Bool) (i' j' : ℕ), n - i = d →
      fiI dist n r i = some (i', j') →
      swappedDistExpr dist r i' j' < currentDistExpr dist r i' j' ∧
        passI dist n r i improved =
          (let q := passJ dist n (twoOptSwap r i' j') i' (j' + 1) true;
           passI dist n q.1 (i' + 1) q.2) := by
  intro d
  induction d with
  | zero =>
    intro i r improved i' j' hd hfi
    rw [fiI_done (by omega)] at hfi
    exact absurd hfi (by simp)
  | succ d ihd =>
    intro i r improved i' j' hd hfi
    by_cases hin : i + 2 < n
    · rw [fiI, if_pos hin] at hfi
      match hj : fiJ dist n r i (i + 2) with
      | some j =>
        rw [hj] at hfi
        have hij : i = i' ∧ j = j' := by simpa using hfi
        obtain ⟨hi', hj'⟩ := hij
        subst hi'
        subst hj'
        obtain ⟨hc, hpj⟩ := passJ_of_fiJ_some dist n r i (i + 2) improved j hj
        refine ⟨hc, ?_⟩
        rw [passI_step hin, hpj]
      | none =>
        rw [hj] at hfi
        have hp := passJ_of_fiJ_none dist n r i (i + 2) improved hj
        obtain ⟨hc, hrest⟩ := ihd (i + 1) r improved i' j' (by omega) hfi
        refine ⟨hc, ?_⟩
        rw [passI_step hin, hp]
        exact hrest
    · rw [fiI_done hin] at hfi
      exact absurd hfi (by simp)

/-- C3 amended: optimize2Opt uses first-improvement acceptance: the
lexicographically first strictly improving pair (i, j) of a pass is the
first move applied, the working route is immediately mutated by reversing
the sub-path between i+1 and j, and the scan then continues from the next
candidate pair (i, j+1) of the same pass — it does not restart from the
top of the pass (the counterexample shows restarting computes a different
route); a fresh scan from the top happens only when the outer while loop
begins the next pass.  A pass with no improving pair leaves the route
unchanged and reports no improvement. -/
theorem firstImprovement_continue (dist : Point → Point → ℚ)
    (r : List Stop) :
    (∀ i j, firstImproving dist r.length r = some (i, j) →
      swappedDistExpr dist r i j < currentDistExpr dist r i j ∧
        passI dist r.length r 0 false =
          (let q := passJ dist r.length (twoOptSwap r i j) i (j + 1) true;
           passI dist r.length q.1 (i + 1) q.2)) ∧
      (firstImproving dist r.length r = none →
        passI dist r.length r 0 false = (r, false)) := by
  constructor
  · intro i j h
    exact passI_of_fiI_some dist r.length r.length 0 r false i j
      (by omega) h
  · intro h
    exact passI_of_fiI_none dist r.length r.length 0 r false (by omega) h

/-- A concrete 4-stop route whose first improving pair is (0, 2). -/
def contRoute : List Stop :=
  [⟨"a", ⟨0, 0⟩⟩, ⟨"b", ⟨5, 0⟩⟩, ⟨"c", ⟨1, 0⟩⟩, ⟨"d", ⟨6, 0⟩⟩]

theorem contRoute_firstImproving :
    firstImproving taxiDist contRoute.length contRoute = some (0, 2) := by
  have row0 : fiJ taxiDist contRoute.length contRoute 0 2 = some 2 := by
    simp (disch := norm_num [currentDistExpr, swappedDistExpr,
        getSegmentDistance, coordAt, taxiDist, contRoute]) only
      [fiJ_accept, fiJ_reject, fiJ_done, Nat.reduceAdd, Nat.reduceLT]
  rw [firstImproving, fiI_some (by norm_num [contRoute]) row0]

/-- C3 amended witness: first-improvement-then-continue instantiated on a
concrete route whose first improving pair is (0, 2). -/
theorem firstImprovement_continue_witness :
    swappedDistExpr taxiDist contRoute 0 2 <
        currentDistExpr taxiDist contRoute 0 2 ∧
      passI taxiDist contRoute.length contRoute 0 false =
        (let q := passJ taxiDist contRoute.length (twoOptSwap contRoute 0 2)
          0 (2 + 1) true;
         passI taxiDist contRoute.length q.1 (0 + 1) q.2) :=
  (firstImprovement_continue taxiDist contRoute).1 0 2
    contRoute_firstImproving

/-- A concrete 6-stop route on which the code's continue-scanning pass
structure and the claimed restart-scanning produce different routes. -/
def cexRoute3 : List Stop :=
  [⟨"a", ⟨2, 7⟩⟩, ⟨"b", ⟨1, -2⟩⟩, ⟨"c", ⟨4, 4⟩⟩, ⟨"d", ⟨5, 2⟩⟩,
    ⟨"e", ⟨1, 1⟩⟩, ⟨"f", ⟨4, 2⟩⟩]

/-- What optimize2Opt actually returns from cexRoute3: within the first
pass it applies the moves (0,3), (0,4) and (2,5), scanning onward after
each move. -/
def cexCodeOut3 : List Stop :=
  [⟨"a", ⟨2, 7⟩⟩, ⟨"e", ⟨1, 1⟩⟩, ⟨"b", ⟨1, -2⟩⟩, ⟨"f", ⟨4, 2⟩⟩,
    ⟨"d", ⟨5, 2⟩⟩, ⟨"c", ⟨4, 4⟩⟩]

/-- cexRoute3 after its first improving move (0, 3). -/
def cexR1 : List Stop :=
  [⟨"a", ⟨2, 7⟩⟩, ⟨"d", ⟨5, 2⟩⟩, ⟨"c", ⟨4, 4⟩⟩, ⟨"b", ⟨1, -2⟩⟩,
    ⟨"e", ⟨1, 1⟩⟩, ⟨"f", ⟨4, 2⟩⟩]

/-- cexR1 after its first improving move (0, 2). -/
def cexR2 : List Stop :=
  [⟨"a", ⟨2, 7⟩⟩, ⟨"c", ⟨4, 4⟩⟩, ⟨"d", ⟨5, 2⟩⟩, ⟨"b", ⟨1, -2⟩⟩,
    ⟨"e", ⟨1, 1⟩⟩, ⟨"f", ⟨4, 2⟩⟩]

/-- The fixed point the restart-scanning semantics reaches from cexRoute3
(moves (0,3), (0,2), (2,5), each the first improving pair of a fresh
scan). -/
def cexRestartOut3 : List Stop :=
  [⟨"a", ⟨2, 7⟩⟩, ⟨"c", ⟨4, 4⟩⟩, ⟨"d", ⟨5, 2⟩⟩, ⟨"f", ⟨4, 2⟩⟩,
    ⟨"e", ⟨1, 1⟩⟩, ⟨"b", ⟨1, -2⟩⟩]

set_option maxRecDepth 8000 in
set_option maxHeartbeats 1600000 in
theorem cexRoute3_pass1 :
    passI taxiDist 6 cexRoute3 0 false = (cexCodeOut3, true) := by
  simp (disch := norm_num [currentDistExpr, swappedDistExpr,
      getSegmentDistance, coordAt, cexRoute3, taxiDist, twoOptSwap]) only
    [passJ_done, passJ_accept, passJ_reject, passI_step, passI_done,
     twoOptSwap, cexRoute3, cexCodeOut3, List.take, List.drop, List.reverse,
     List.length, List.append, List.reverseAux, List.cons_append,
     List.nil_append, Nat.reduceAdd, Nat.reduceLT]

set_option maxRecDepth 8000 in
set_option maxHeartbeats 1600000 in
theorem cexRoute3_pass2 :
    passI taxiDist 6 cexCodeOut3 0 false = (cexCodeOut3, false) := by
  simp (disch := norm_num [currentDistExpr, swappedDistExpr,
      getSegmentDistance, coordAt, cexCodeOut3, taxiDist, twoOptSwap]) only
    [passJ_done, passJ_accept, passJ_reject, passI_step, passI_done,
     twoOptSwap, cexCodeOut3, List.take, List.drop, List.reverse,
     List.length, List.append, List.reverseAux, List.cons_append,
     List.nil_append, Nat.reduceAdd, Nat.reduceLT]

theorem cexRoute3_code_eval : optimize2Opt taxiDist cexRoute3 2 = cexCodeOut3 := by
  have e0 : optimize2Opt taxiDist cexRoute3 2 = optLoop taxiDist 6 2 cexRoute3 := by
    show (if cexRoute3.length < 4 then cexRoute3
      else optLoop taxiDist cexRoute3.length 2 cexRoute3) = _
    norm_num [cexRoute3]
  have e1 : optLoop taxiDist 6 2 cexRoute3 =
      (if (passI taxiDist 6 cexRoute3 0 false).2 then
        optLoop taxiDist 6 1 (passI taxiDist 6 cexRoute3 0 false).1
      else (passI taxiDist 6 cexRoute3 0 false).1) := rfl
  have e2 : optLoop taxiDist 6 1 cexCodeOut3 =
      (if (passI taxiDist 6 cexCodeOut3 0 false).2 then
        optLoop taxiDist 6 0 (passI taxiDist 6 cexCodeOut3 0 false).1
      else (passI taxiDist 6 cexCodeOut3 0 false).1) := rfl
  rw [e0, e1, cexRoute3_pass1]
  simp only [Prod.snd, if_true]
  rw [e2, cexRoute3_pass2]
  simp

theorem cexRoute3_fi : firstImproving taxiDist 6 cexRoute3 = some (0, 3) := by
  have row0 : fiJ taxiDist 6 cexRoute3 0 2 = some 3 := by
    simp (disch := norm_num [currentDistExpr, swappedDistExpr,
        getSegmentDistance, coordAt, taxiDist, cexRoute3]) only
      [fiJ_accept, fiJ_reject, fiJ_done, Nat.reduceAdd, Nat.reduceLT]
  rw [firstImproving, fiI_some (by norm_num) row0]

theorem cexR1_fi : firstImproving taxiDist 6 cexR1 = some (0, 2) := by
  have row0 : fiJ taxiDist 6 cexR1 0 2 = some 2 := by
    simp (disch := norm_num [currentDistExpr, swappedDistExpr,
        getSegmentDistance, coordAt, taxiDist, cexR1]) only
      [fiJ_accept, fiJ_reject, fiJ_done, Nat.reduceAdd, Nat.reduceLT]
  rw [firstImproving, fiI_some (by norm_num) row0]

theorem cexR2_fi : firstImproving taxiDist 6 cexR2 = some (2, 5) := by
  have row0 : fiJ taxiDist 6 cexR2 0 2 = none := by
    simp (disch := norm_num [currentDistExpr, swappedDistExpr,
        getSegmentDistance, coordAt, taxiDist, cexR2]) only
      [fiJ_accept, fiJ_reject, fiJ_done, Nat.reduceAdd, Nat.reduceLT]
  have row1 : fiJ taxiDist 6 cexR2 1 3 = none := by
    simp (disch := norm_num [currentDistExpr, swappedDistExpr,
        getSegmentDistance, coordAt, taxiDist, cexR2]) only
      [fiJ_accept, fiJ_reject, fiJ_done, Nat.reduceAdd, Nat.reduceLT]
  have row2 : fiJ taxiDist 6 cexR2 2 4 = some 5 := by
    simp (disch := norm_num [currentDistExpr, swappedDistExpr,
        getSegmentDistance, coordAt, taxiDist, cexR2]) only
      [fiJ_accept, fiJ_reject, fiJ_done, Nat.reduceAdd, Nat.reduceLT]
  rw [firstImproving, fiI_skip (by norm_num) row0,
    fiI_skip (by norm_num) row1, fiI_some (by norm_num) row2]

theorem cexRestartOut3_fi :
    firstImproving taxiDist 6 cexRestartOut3 = none := by
  have row0 : fiJ taxiDist 6 cexRestartOut3 0 2 = none := by
    simp (disch := norm_num [currentDistExpr, swappedDistExpr,
        getSegmentDistance, coordAt, taxiDist, cexRestartOut3]) only
      [fiJ_accept, fiJ_reject, fiJ_done, Nat.reduceAdd, Nat.reduceLT]
  have row1 : fiJ taxiDist 6 cexRestartOut3 1 3 = none := by
    simp (disch := norm_num [currentDistExpr, swappedDistExpr,
        getSegmentDistance, coordAt, taxiDist, cexRestartOut3]) only
      [fiJ_accept, fiJ_reject, fiJ_done, Nat.reduceAdd, Nat.reduceLT]
  have row2 : fiJ taxiDist 6 cexRestartOut3 2 4 = none := by
    simp (disch := norm_num [currentDistExpr, swappedDistExpr,
        getSegmentDistance, coordAt, taxiDist, cexRestartOut3]) only
      [fiJ_accept, fiJ_reject, fiJ_done, Nat.reduceAdd, Nat.reduceLT]
  have row3 : fiJ taxiDist 6 cexRestartOut3 3 5 = none := by
    simp (disch := norm_num [currentDistExpr, swappedDistExpr,
        getSegmentDistance, coordAt, taxiDist, cexRestartOut3]) only
      [fiJ_accept, fiJ_reject, fiJ_done, Nat.reduceAdd, Nat.reduceLT]
  rw [firstImproving, fiI_skip (by norm_num) row0,
    fiI_skip (by norm_num) row1, fiI_skip (by norm_num) row2,
    fiI_skip (by norm_num) row3, fiI_done (by norm_num)]

theorem cexRoute3_restart_eval :
    restartPass taxiDist 6 10 cexRoute3 = cexRestartOut3 := by
  have s1 : twoOptSwap cexRoute3 0 3 = cexR1 := by
    norm_num [twoOptSwap, cexRoute3, cexR1]
  have s2 : twoOptSwap cexR1 0 2 = cexR2 := by
    norm_num [twoOptSwap, cexR1, cexR2]
  have s3 : twoOptSwap cexR2 2 5 = cexRestartOut3 := by
    norm_num [twoOptSwap, cexR2, cexRestartOut3]
  rw [show (10 : ℕ) = 9 + 1 from rfl, restartPass_move cexRoute3_fi, s1,
    show (9 : ℕ) = 8 + 1 from rfl, restartPass_move cexR1_fi, s2,
    show (8 : ℕ) = 7 + 1 from rfl, restartPass_move cexR2_fi, s3,
    show (7 : ℕ) = 6 + 1 from rfl, restartPass_fix cexRestartOut3_fi]

/-- C3 counterexample: on the concrete 6-stop route cexRoute3 the code's
output differs from what restart-scanning (the claimed behaviour, run to
its fixed point — reached, as the first conjunct certifies) produces: the
pair scan continues after a move instead of restarting from the top of
the pass. -/
theorem restart_semantics_cex :
    firstImproving taxiDist 6 (restartPass taxiDist 6 10 cexRoute3) = none ∧
      optimize2Opt taxiDist cexRoute3 2 ≠ restartPass taxiDist 6 10 cexRoute3 := by
  rw [cexRoute3_restart_eval, cexRoute3_code_eval]
  refine ⟨cexRestartOut3_fi, fun h => ?_⟩
  have hmap := congrArg (List.map Stop.id) h
  simp [cexCodeOut3, cexRestartOut3] at hmap

/-- C2 amended witness: the wrap-edge characterisation instantiated at the
concrete route cexRoute2 and i = 1. -/
theorem lastPosition_comparison_witness :
    currentDistExpr taxiDist cexRoute2 1 (cexRoute2.length - 1) =
        taxiDist (coordAt cexRoute2 1) (coordAt cexRoute2 2) +
          taxiDist (coordAt cexRoute2 (cexRoute2.length - 1))
            (coordAt cexRoute2 0) ∧
      swappedDistExpr taxiDist cexRoute2 1 (cexRoute2.length - 1) =
        taxiDist (coordAt cexRoute2 1)
            (coordAt cexRoute2 (cexRoute2.length - 1)) +
          taxiDist (coordAt cexRoute2 2) (coordAt cexRoute2 0) :=
  lastPosition_comparison_wraps taxiDist cexRoute2 1 (by simp [cexRoute2])
    (by simp [cexRoute2])

end SmartSite
